import Mathlib

/-!
# Verification of the financial-doc-reader consensus / escalation engine

Shallow embedding of the core logic of the repository `ronihogri/financial-doc-reader`
(files `SEC_filing_reader_step1.py`, `SEC_filing_reader_step2.py`,
`SEC_filing_reader_step3.py`) together with proofs about the embedded code.

Conventions used throughout:
* Python `dict`s that preserve insertion order are modelled as association lists.
* Python values appearing in the JSON logs are modelled by the inductive type `JVal`.
* Python code that can raise an exception is modelled in the `Except PyErr` monad;
  code whose exceptions are swallowed by a bare `except:` is modelled as total.
* `np.ceil(n / 2)` on a natural `n` equals the natural number `(n + 1) / 2`.
* External oracle calls (OpenAI completions) are modelled by a stream
  `Nat → CallResult` giving the outcome of each successive API call.
-/

/-! ## Vote aggregation (step1 `count_votes`, `check_majority`)

`Counter(votes.values()).most_common(1)[0]` returns the (key, count) pair with the
largest count; `collections.Counter` keeps keys in first-insertion order and
`most_common` uses a stable sort, so among tied counts the value that first
appeared in the vote sequence is returned.  A Python `dict` of votes keyed by
consecutive trial numbers is modelled as the `List` of its values in trial order. -/

/-- `np.ceil(trials / 2)` as a natural number. -/
def ceilHalf (n : Nat) : Nat := (n + 1) / 2

/-- The largest multiplicity of any element of `l`
(`Counter(l).most_common(1)[0][1]`); `0` for the empty list
(where Python would raise `IndexError`). -/
def maxVoteCount (l : List String) : Nat :=
  l.foldr (fun v m => max (l.count v) m) 0

/-- Embeds step1's `count_votes` (step2's is textually identical; step3's variant
counts `str(v)` images and returns the first original value of the winning image,
which coincides with this function when all votes are strings, as they are in
steps 1 and 2).  Returns the first-inserted value of maximal count unless that
count is below `ceil(len(votes)/2)`, in which case the vote is undecided (`none`).
For the empty dict Python raises `IndexError`; we return `none`, and every theorem
about this function assumes a non-empty vote list. -/
def count_votes (votes : List String) : Option String :=
  match votes.find? (fun v => votes.count v == maxVoteCount votes) with
  | none => none
  | some v => if votes.count v < ceilHalf votes.length then none else some v

/-- Embeds `check_majority(votes, trials)` (steps 1–3): `True` exactly when the
current leading value's count equals `np.ceil(trials / 2)`. -/
def check_majority (votes : List String) (trials : Nat) : Bool :=
  maxVoteCount votes == ceilHalf trials

/-- Python's `str.strip()` whitespace test (`string.whitespace`). -/
def isPySpace (c : Char) : Bool :=
  c = ' ' || c = '\t' || c = '\n' || c = '\r' || c = '\x0b' || c = '\x0c'

/-- Python `str.strip()` on a character list: drop leading and trailing whitespace. -/
def pyStripChars (cs : List Char) : List Char :=
  ((cs.dropWhile isPySpace).reverse.dropWhile isPySpace).reverse

/-- `gpt_output.replace("`", "").strip()` applied to each raw completion
(`replace` with the empty replacement deletes every backtick). -/
def cleanOutput (s : String) : String :=
  ⟨pyStripChars (s.data.filter (fun c => c ≠ '\x60'))⟩

example : count_votes ["A", "A", "B"] = some "A" := by decide
example : count_votes ["A", "B", "C"] = none := by decide
example : count_votes ["A", "A", "B", "B"] = some "A" := by decide
example : check_majority ["A", "A", "A"] 5 = true := by decide
example : check_majority ["A", "A", "B"] 5 = false := by decide

/-! ### Facts about `maxVoteCount` -/

lemma count_le_foldr_max (l : List String) (aux : List String) (v : String)
    (hv : v ∈ aux) :
    l.count v ≤ aux.foldr (fun w m => max (l.count w) m) 0 := by
  induction aux with
  | nil => cases hv
  | cons a rest ih =>
    rcases List.mem_cons.mp hv with h | h
    · subst h; exact le_max_left _ _
    · exact le_trans (ih h) (le_max_right _ _)

lemma le_maxVoteCount (l : List String) (v : String) (hv : v ∈ l) :
    l.count v ≤ maxVoteCount l :=
  count_le_foldr_max l l v hv

lemma exists_foldr_max (l : List String) (aux : List String) (ha : aux ≠ []) :
    ∃ v ∈ aux, l.count v = aux.foldr (fun w m => max (l.count w) m) 0 := by
  induction aux with
  | nil => exact absurd rfl ha
  | cons a rest ih =>
    cases rest with
    | nil =>
      refine ⟨a, List.mem_cons_self _ _, ?_⟩
      simp
    | cons b rest' =>
      rcases ih (by simp) with ⟨v, hv, hveq⟩
      have hstep : (a :: b :: rest').foldr (fun w m => max (l.count w) m) 0
          = max (l.count a) ((b :: rest').foldr (fun w m => max (l.count w) m) 0) := rfl
      by_cases hcmp : (b :: rest').foldr (fun w m => max (l.count w) m) 0 ≤ l.count a
      · refine ⟨a, List.mem_cons_self _ _, ?_⟩
        rw [hstep, max_eq_left hcmp]
      · refine ⟨v, List.mem_cons_of_mem _ hv, ?_⟩
        rw [hstep, max_eq_right (le_of_not_le hcmp)]
        exact hveq

lemma exists_maxVoteCount (l : List String) (h : l ≠ []) :
    ∃ v ∈ l, l.count v = maxVoteCount l :=
  exists_foldr_max l l h

/-! ### Claim C1 -/

/-- **C1** (counterexample).  The claim states that on a tie at the top —
its own example being votes `[A, A, B, B]` — `count_votes` returns the
"undecided" value `None`.  The embedded code instead returns `"A"`:
the top count `2` equals `ceil(4/2) = 2`, so the threshold test passes and the
first-inserted value of maximal count is returned. -/
theorem count_votes_tie_counterexample :
    count_votes ["A", "A", "B", "B"] = some "A" := by decide

/-- **C1** (amended).  `count_votes` returns `none` exactly when the top vote
count is below `ceil(total/2)`; when it returns a value, that value occurs in the
votes, its count is the (not necessarily strictly) highest, and that count is at
least `ceil(total/2)`.  (A tie at the top can pass the threshold only in the
even split `top = total/2`, in which case the earliest-cast tied value is
returned rather than `none`.) -/
theorem count_votes_majority_rule (l : List String) (h : l ≠ []) :
    (count_votes l = none ↔ maxVoteCount l < ceilHalf l.length) ∧
    (∀ v, count_votes l = some v →
      v ∈ l ∧ l.count v = maxVoteCount l ∧ ceilHalf l.length ≤ l.count v) := by
  unfold count_votes
  cases hf : l.find? (fun v => l.count v == maxVoteCount l) with
  | none =>
    rcases exists_maxVoteCount l h with ⟨v, hv, hveq⟩
    have := List.find?_eq_none.mp hf v hv
    simp [hveq] at this
  | some v =>
    have hpred : l.count v = maxVoteCount l := by
      have := List.find?_some hf
      simpa using this
    have hmem : v ∈ l := List.mem_of_find?_eq_some hf
    by_cases hlt : l.count v < ceilHalf l.length
    · constructor
      · simp only [if_pos hlt]
        exact iff_of_true trivial (by omega)
      · intro w hw
        simp [if_pos hlt] at hw
    · constructor
      · simp only [if_neg hlt]
        exact iff_of_false (by simp) (by omega)
      · intro w hw
        simp only [if_neg hlt] at hw
        cases hw
        exact ⟨hmem, hpred, le_of_not_lt hlt⟩

/-- Witness for `count_votes_majority_rule` at the concrete vote list
`["A", "A", "B"]`. -/
theorem count_votes_majority_rule_witness :
    ["A", "A", "B"] ≠ ([] : List String) ∧
    ((count_votes ["A", "A", "B"] = none ↔
        maxVoteCount ["A", "A", "B"] < ceilHalf (["A", "A", "B"] : List String).length) ∧
      (∀ v, count_votes ["A", "A", "B"] = some v →
        v ∈ ["A", "A", "B"] ∧
          (["A", "A", "B"] : List String).count v = maxVoteCount ["A", "A", "B"] ∧
          ceilHalf (["A", "A", "B"] : List String).length ≤ (["A", "A", "B"] : List String).count v)) :=
  ⟨by decide, count_votes_majority_rule ["A", "A", "B"] (by decide)⟩

/-! ## The oracle-call loop (step1 `gpt_completion`)

One call to the OpenAI completions endpoint either succeeds with a text, fails
with `openai.RateLimitError`, or fails with another `openai.OpenAIError`.  The
external service is modelled as a stream `Nat → CallResult` indexed by the number
of API calls made so far within the `gpt_completion` invocation.  The `while True`
loop of `gpt_completion` is embedded with explicit fuel; `none` models
non-termination (which the Python loop exhibits only for `trials ≤ 0`), and
`trials + GPT_ATTEMPTS` units of fuel are enough for every `trials ≥ 1`. -/

/-- Outcome of a single `client.chat.completions.create` call. -/
inductive CallResult where
  | ok (s : String)
  | rateLimit
  | apiError
deriving DecidableEq

/-- Result of a whole `gpt_completion` invocation, instrumented with the total
number of API calls that were issued.
* `success votes calls` — the vote dict (values in trial order) that is returned;
* `fatalRateLimit calls` — the re-raised `openai.RateLimitError` ("quota exceeded");
* `fatalAttempts calls` — the fatal `Exception` raised when `fail_counter`
  reaches `GPT_ATTEMPTS`. -/
inductive GptOutcome where
  | success (votes : List String) (calls : Nat)
  | fatalRateLimit (calls : Nat)
  | fatalAttempts (calls : Nat)
deriving DecidableEq

/-- `GPT_ATTEMPTS = 3` — the fixed retry budget for OpenAI errors. -/
def GPT_ATTEMPTS : Nat := 3

/-- The body of step1's `gpt_completion` `while True` loop.  `callIdx` counts API
calls issued so far, `failCnt` is `fail_counter`, and `votes` is the list of
values of the `votes` dict (whose keys are the consecutive trial numbers), so
`votes.length` equals `trial_counter`.  Step3's loop differs only in its final
guard (`trial_counter >= trials` instead of `==`), which agrees with this one on
every reachable state. -/
def gptLoop (oracle : Nat → CallResult) (trials : Nat) :
    Nat → Nat → Nat → List String → Option GptOutcome
  | 0, _, _, _ => none
  | fuel + 1, callIdx, failCnt, votes =>
    match oracle callIdx with
    | .rateLimit => some (.fatalRateLimit (callIdx + 1))
    | .apiError =>
      if failCnt + 1 = GPT_ATTEMPTS then some (.fatalAttempts (callIdx + 1))
      else gptLoop oracle trials fuel (callIdx + 1) (failCnt + 1) votes
    | .ok s =>
      let votes' := votes ++ [cleanOutput s]
      if trials = 1 then some (.success votes' (callIdx + 1))
      else if ceilHalf trials ≤ votes'.length ∧ check_majority votes' trials then
        some (.success votes' (callIdx + 1))
      else if votes'.length = trials then some (.success votes' (callIdx + 1))
      else gptLoop oracle trials fuel (callIdx + 1) failCnt votes'

/-- Embeds step1's `gpt_completion` (voting loop with retry handling), run on an
oracle stream. -/
def gpt_completion (oracle : Nat → CallResult) (trials : Nat) : Option GptOutcome :=
  gptLoop oracle trials (trials + GPT_ATTEMPTS) 0 0 []

example :
    gpt_completion (fun _ => .ok "A") 5 = some (.success ["A", "A", "A"] 3) := by decide
example :
    gpt_completion (fun i => if i = 0 then .ok "A" else .ok "B") 3
      = some (.success ["A", "B", "B"] 3) := by decide
example : gpt_completion (fun _ => .ok "X") 1 = some (.success ["X"] 1) := by decide
example : gpt_completion (fun _ => .apiError) 5 = some (.fatalAttempts 3) := by decide
example :
    gpt_completion (fun i => if i = 0 then .apiError else .rateLimit) 5
      = some (.fatalRateLimit 2) := by decide

/-! ### Claim C2: sequential trials with unbeatable-majority early stop -/

/-- The first `k` cleaned oracle outputs, i.e. the vote list after `k` successful
trials against the all-successful oracle stream `s`. -/
def votesPfx (s : Nat → String) (k : Nat) : List String :=
  (List.range k).map (fun i => cleanOutput (s i))

lemma votesPfx_succ (s : Nat → String) (k : Nat) :
    votesPfx s (k + 1) = votesPfx s k ++ [cleanOutput (s k)] := by
  simp [votesPfx, List.range_succ]

lemma votesPfx_length (s : Nat → String) (k : Nat) :
    (votesPfx s k).length = k := by
  simp [votesPfx]

/-- Loop invariant for `gptLoop` against an all-successful oracle: from any state
`k < trials` successful trials in, with enough fuel, the loop returns the vote
prefix of the least length `L > k` at which either the unbeatable-majority test
fires or all `trials` trials are exhausted. -/
lemma gptLoop_allOk (s : Nat → String) (trials : Nat) (h2 : 2 ≤ trials) :
    ∀ fuel k, k < trials → trials - k ≤ fuel →
    ∃ L, k < L ∧ L ≤ trials ∧
      gptLoop (fun i => .ok (s i)) trials fuel k 0 (votesPfx s k)
        = some (.success (votesPfx s L) L) ∧
      (L = trials ∨ (ceilHalf trials ≤ L ∧ check_majority (votesPfx s L) trials = true)) ∧
      (∀ j, k < j → j < L →
        ¬(ceilHalf trials ≤ j ∧ check_majority (votesPfx s j) trials = true)) := by
  intro fuel
  induction fuel with
  | zero => intro k hk hfuel; omega
  | succ fuel ih =>
    intro k hk hfuel
    have hne1 : trials ≠ 1 := by omega
    have hlen : (votesPfx s k ++ [cleanOutput (s k)]).length = k + 1 := by
      rw [← votesPfx_succ, votesPfx_length]
    by_cases hstop : ceilHalf trials ≤ k + 1 ∧ check_majority (votesPfx s (k + 1)) trials = true
    · refine ⟨k + 1, Nat.lt_succ_self k, by omega, ?_, Or.inr hstop, by omega⟩
      show gptLoop _ trials (fuel + 1) k 0 (votesPfx s k) = _
      rw [gptLoop]
      simp only [← votesPfx_succ]
      rw [if_neg hne1, if_pos (by rw [votesPfx_length]; exact hstop)]
    · by_cases hend : k + 1 = trials
      · refine ⟨trials, by omega, le_refl _, ?_, Or.inl rfl, by omega⟩
        show gptLoop _ trials (fuel + 1) k 0 (votesPfx s k) = _
        rw [gptLoop]
        simp only [← votesPfx_succ]
        rw [if_neg hne1, if_neg (by rw [votesPfx_length]; exact hstop),
          if_pos (by rw [votesPfx_length]; exact hend), hend]
      · rcases ih (k + 1) (by omega) (by omega) with ⟨L, hkL, hLt, hloop, hdisj, hmin⟩
        refine ⟨L, by omega, hLt, ?_, hdisj, ?_⟩
        · show gptLoop _ trials (fuel + 1) k 0 (votesPfx s k) = _
          rw [gptLoop]
          simp only [← votesPfx_succ]
          rw [if_neg hne1, if_neg (by rw [votesPfx_length]; exact hstop),
            if_neg (by rw [votesPfx_length]; exact hend)]
          exact hloop
        · intro j hj1 hj2
          rcases Nat.lt_or_ge k.succ j with hgt | hle
          · exact hmin j hgt hj2
          · have : j = k + 1 := by omega
            subst this
            exact hstop

/-- **C2**.  Against an always-successful oracle: for every trial budget
`T ≥ 2` the trials are issued sequentially and the loop stops after the least
number `L` of collected votes such that either `L = T`, or `L ≥ ceil(T/2)` votes
have been collected and the leading value's count equals `ceil(T/2)`
(`check_majority`); exactly `L` API calls are issued.  For `T = 1` the single
cleaned vote is returned after one call, with no aggregation.  In particular,
with `T = 5` and three identical answers, the run stops after 3 trials —
trials 4 and 5 are never issued. -/
theorem gpt_completion_early_stop (s : Nat → String) (trials : Nat) (h2 : 2 ≤ trials) :
    (∃ L, 1 ≤ L ∧ L ≤ trials ∧
      gpt_completion (fun i => .ok (s i)) trials = some (.success (votesPfx s L) L) ∧
      (L = trials ∨ (ceilHalf trials ≤ L ∧ check_majority (votesPfx s L) trials = true)) ∧
      (∀ j, j < L →
        ¬(ceilHalf trials ≤ j ∧ check_majority (votesPfx s j) trials = true))) ∧
    (∀ t : Nat → String,
      gpt_completion (fun i => .ok (t i)) 1 = some (.success [cleanOutput (t 0)] 1)) ∧
    gpt_completion (fun _ => .ok "A") 5 = some (.success ["A", "A", "A"] 3) := by
  refine ⟨?_, ?_, by decide⟩
  · rcases gptLoop_allOk s trials h2 (trials + GPT_ATTEMPTS) 0 (by omega) (by omega)
      with ⟨L, h0L, hLt, hloop, hdisj, hmin⟩
    refine ⟨L, h0L, hLt, hloop, hdisj, ?_⟩
    intro j hj
    rcases Nat.eq_zero_or_pos j with rfl | hpos
    · intro hc
      have : 1 ≤ ceilHalf trials := by unfold ceilHalf; omega
      omega
    · exact hmin j hpos hj
  · intro t
    rfl

/-- Witness for `gpt_completion_early_stop` at `trials = 5` and the constant
answer stream `"A"`: the tally is `A:3` after 3 trials and calls 4 and 5 are
never made. -/
theorem gpt_completion_early_stop_witness :
    gpt_completion (fun _ => .ok "A") 5 = some (.success ["A", "A", "A"] 3) :=
  (gpt_completion_early_stop (fun _ => "A") 5 (by omega)).2.2

/-! ## JSON values and the log-file model

The JSON log documents manipulated by `update_json` / `read_from_json` are
modelled by `JVal`.  Python `dict`s preserve insertion order; they are modelled
as association lists.  Assigning to an existing key keeps its position,
assigning to a fresh key appends it. -/

/-- A Python/JSON value as it appears in the log files. -/
inductive JVal where
  | null
  | int (n : Int)
  | str (s : String)
  | list (xs : List JVal)
  | obj (fields : List (String × JVal))

/-- The Python exceptions our embedded fragments can raise. -/
inductive PyErr where
  | typeError
  | keyError
  | indexError
  | attributeError
deriving DecidableEq

/-- Python truthiness of a `JVal` (`bool(v)`). -/
def pyFalsy : JVal → Bool
  | .null => true
  | .int n => n = 0
  | .str s => s = ""
  | .list xs => xs.isEmpty
  | .obj fs => fs.isEmpty

/-- Whether a value is hashable in Python (lists and dicts are not). -/
def hashable : JVal → Bool
  | .list _ => false
  | .obj _ => false
  | _ => true

/-- Python `==` restricted to hashable scalars; on non-scalars it returns
`false` (the embedding only compares scalars: every code path that would compare
an unhashable value raises beforehand).  `scalarEq a b = true` implies `a = b`. -/
def scalarEq : JVal → JVal → Bool
  | .null, .null => true
  | .int a, .int b => a = b
  | .str a, .str b => a = b
  | _, _ => false

lemma scalarEq_eq {a b : JVal} (h : scalarEq a b = true) : a = b := by
  cases a <;> cases b <;> simp [scalarEq] at h <;> simp [h]

/-- `d[k]` on an ordered dict, as an `Option`. -/
def getField (o : List (String × JVal)) (k : String) : Option JVal :=
  (o.find? (fun p => p.1 = k)).map (fun p => p.2)

/-- `d[k] = v` on an ordered dict: an existing key keeps its position, a new key
is appended (CPython dict semantics; the logs never hold duplicate keys). -/
def setField (o : List (String × JVal)) (k : String) (v : JVal) : List (String × JVal) :=
  match o with
  | [] => [(k, v)]
  | p :: rest => if p.1 = k then (k, v) :: rest else p :: setField rest k v

/-- Navigation through nested dicts by a key path (the reading counterpart of
`update_json`, as `read_from_json` does it). -/
def lookupPath (v : JVal) : List String → Option JVal
  | [] => some v
  | k :: rest =>
    match v with
    | .obj o =>
      match getField o k with
      | some w => lookupPath w rest
      | none => none
    | _ => none

/-- Helper for `dedupKeepFirst`: keep elements not already seen. -/
def dedupKeepFirstAux (eq : JVal → JVal → Bool) (seen : List JVal) :
    List JVal → List JVal
  | [] => []
  | a :: rest =>
    if seen.any (fun b => eq b a) then dedupKeepFirstAux eq seen rest
    else a :: dedupKeepFirstAux eq (a :: seen) rest

/-- `list(dict.fromkeys(l))`-style deduplication keeping first occurrences,
with an explicit equality test. -/
def dedupKeepFirst (eq : JVal → JVal → Bool) (l : List JVal) : List JVal :=
  dedupKeepFirstAux eq [] l

/-- The argument of `.extend` / `.append`: a list extends, anything else is
appended as a single element. -/
def pyAsList : JVal → List JVal
  | .list xs => xs
  | v => [v]

/-! ### `getField` / `setField` lemmas -/

lemma getField_setField_self (o : List (String × JVal)) (k : String) (v : JVal) :
    getField (setField o k v) k = some v := by
  induction o with
  | nil => simp [setField, getField, List.find?]
  | cons p rest ih =>
    by_cases hp : p.1 = k
    · simp [setField, hp, getField, List.find?]
    · simp only [setField, if_neg hp]
      unfold getField
      rw [List.find?_cons_of_neg _ (by simpa using hp)]
      exact ih

lemma getField_setField_ne (o : List (String × JVal)) (k k' : String) (v : JVal)
    (h : k' ≠ k) : getField (setField o k v) k' = getField o k' := by
  induction o with
  | nil => simp [setField, getField, List.find?, Ne.symm h]
  | cons p rest ih =>
    by_cases hp : p.1 = k
    · simp only [setField, if_pos hp]
      unfold getField
      rw [List.find?_cons_of_neg _ (by simpa using (Ne.symm h)),
        List.find?_cons_of_neg _ (by simpa [hp] using (Ne.symm h))]
    · simp only [setField, if_neg hp]
      by_cases hp' : p.1 = k'
      · unfold getField
        rw [List.find?_cons_of_pos _ (by simpa using hp'),
          List.find?_cons_of_pos _ (by simpa using hp')]
      · unfold getField
        rw [List.find?_cons_of_neg _ (by simpa using hp'),
          List.find?_cons_of_neg _ (by simpa using hp')]
        exact ih

/-! ## `update_json` (step3; step1 differs only in using `list(set(...))`,
an order-unspecified deduplication, where step3 uses `list(dict.fromkeys(...))`) -/

/-- The `key == 'problems'` branch of `update_json`, acting on the fields of the
dict at the end of the path: `sub_dict['data']` (a `KeyError` if absent) is reset
to `[]` if falsy, extended with the value (element-wise for a list value,
appended otherwise; an `AttributeError` if the existing data is truthy but not a
list), then deduplicated with `list(dict.fromkeys(...))` (a `TypeError` on an
unhashable element), keeping first occurrences. -/
def problemsFieldsUpd (child : List (String × JVal)) (v : JVal) :
    Except PyErr (List (String × JVal)) :=
  match getField child "data" with
  | none => .error .keyError
  | some d =>
    let base : Except PyErr (List JVal) :=
      if pyFalsy d then .ok []
      else
        match d with
        | .list xs => .ok xs
        | _ => .error .attributeError
    match base with
    | .error e => .error e
    | .ok xs =>
      let newList := xs ++ pyAsList v
      if newList.all hashable then
        .ok (setField child "data" (.list (dedupKeepFirst scalarEq newList)))
      else .error .typeError

/-- One `dict_path` iteration of `update_json`'s outer loop, acting on the fields
of the top-level dict.  Mirrors the source exactly:
* each key on the path whose current value is missing or not a dict is replaced
  by a fresh `{}` before descending;
* a key equal to `'model'` is assigned the value in place and, crucially, the
  walk does **not** descend — subsequent keys keep operating on the same dict;
* after the walk, the final dict receives `data` (or the problems update) and a
  fresh `timestamp`, except when the final key is `'model'`.
The empty path is returned unchanged (in Python an empty tuple leaves the loop
variable `key` unbound or stale; all theorems assume non-empty paths). -/
def childOf (o : List (String × JVal)) (k : String) : List (String × JVal) :=
  match getField o k with
  | some (.obj fs) => fs
  | _ => []

def pyUpdatePath (o : List (String × JVal)) (path : List String) (v : JVal)
    (now : String) : Except PyErr (List (String × JVal)) :=
  match path with
  | [] => .ok o
  | k :: rest =>
    match rest with
    | [] =>
      if k = "model" then .ok (setField o k v)
      else if k = "problems" then
        match problemsFieldsUpd (childOf o k) v with
        | .error e => .error e
        | .ok child' => .ok (setField o k (.obj (setField child' "timestamp" (.str now))))
      else
        .ok (setField o k (.obj (setField (setField (childOf o k) "data" v) "timestamp" (.str now))))
    | _ :: _ =>
      if k = "model" then pyUpdatePath (setField o k v) rest v now
      else
        match pyUpdatePath (childOf o k) rest v now with
        | .error e => .error e
        | .ok child' => .ok (setField o k (.obj child'))

/-- The fold of `update_json` over `zip(dict_path_list, value_list)` (Python's
`zip` truncates to the shorter list). -/
def updateJsonGo (now : String) :
    List (String × JVal) → List (List String × JVal) → Except PyErr (List (String × JVal))
  | o, [] => .ok o
  | o, (p, v) :: rest =>
    match pyUpdatePath o p v now with
    | .error e => .error e
    | .ok o' => updateJsonGo now o' rest

/-- Embeds `update_json(file_path, dict_path_list, value_list)` (step3) as a
transformation of the loaded JSON document; `now` stands for the
`datetime.now()` timestamp string.  A non-dict top-level document would make the
first `key not in sub_dict` test raise `TypeError`. -/
def update_json (doc : JVal) (dict_path_list : List (List String))
    (value_list : List JVal) (now : String) : Except PyErr JVal :=
  match doc with
  | .obj o =>
    match updateJsonGo now o (dict_path_list.zip value_list) with
    | .error e => .error e
    | .ok o' => .ok (.obj o')
  | _ => .error .typeError

example :
    update_json (.obj [("balance", .obj [("data", .null), ("timestamp", .null)])])
      [["balance"]] [.list [.str "x"]] "T"
      = .ok (.obj [("balance", .obj [("data", .list [.str "x"]), ("timestamp", .str "T")])]) := by
  rfl

example :
    update_json
      (.obj [("problems", .obj [("data", .list [.str "p1", .str "p2"]), ("timestamp", .null)])])
      [["problems"]] [.list [.str "p2", .str "p3"]] "T"
      = .ok (.obj [("problems",
          .obj [("data", .list [.str "p1", .str "p2", .str "p3"]), ("timestamp", .str "T")])]) := by
  rfl

example :
    update_json (.obj [("a", .obj [("data", .int 1)]), ("b", .int 7)])
      [["a", "model"]] [.str "gpt"] "T"
      = .ok (.obj [("a", .obj [("data", .int 1), ("model", .str "gpt")]), ("b", .int 7)]) := by
  rfl

/-! ### Path relations for the frame property of `update_json` -/

/-- `p` is a (not necessarily strict) leading segment of `q`. -/
def isPfxOf (p q : List String) : Prop := ∃ r, p ++ r = q

lemma isPfxOf_nil (q : List String) : isPfxOf [] q := ⟨q, rfl⟩

lemma isPfxOf_cons_iff (k : String) (p q : List String) :
    isPfxOf (k :: p) (k :: q) ↔ isPfxOf p q := by
  constructor
  · rintro ⟨r, hr⟩
    exact ⟨r, by injection hr⟩
  · rintro ⟨r, hr⟩
    exact ⟨r, by rw [List.cons_append, hr]⟩

lemma not_isPfxOf_cons_ne {k k' : String} (h : k ≠ k') (p q : List String) :
    ¬ isPfxOf (k :: p) (k' :: q) := by
  rintro ⟨r, hr⟩
  injection hr with h1 _
  exact h h1

lemma lookupPath_obj_cons (fs : List (String × JVal)) (k : String) (t : List String) :
    lookupPath (.obj fs) (k :: t)
      = match getField fs k with
        | some w => lookupPath w t
        | none => none := rfl

lemma lookupPath_nonobj (w : JVal) (k : String) (t : List String)
    (h : ∀ fs, w ≠ .obj fs) : lookupPath w (k :: t) = none := by
  cases w <;> first | rfl | exact absurd rfl (h _)

lemma lookupPath_setField_ne (o : List (String × JVal)) (k k' : String) (w : JVal)
    (t : List String) (h : k' ≠ k) :
    lookupPath (.obj (setField o k w)) (k' :: t) = lookupPath (.obj o) (k' :: t) := by
  rw [lookupPath_obj_cons, lookupPath_obj_cons, getField_setField_ne o k k' w h]

lemma pyUpdatePath_single (o : List (String × JVal)) (k : String) (v : JVal)
    (now : String) :
    pyUpdatePath o [k] v now
      = if k = "model" then .ok (setField o k v)
        else if k = "problems" then
          match problemsFieldsUpd (childOf o k) v with
          | .error e => .error e
          | .ok child' => .ok (setField o k (.obj (setField child' "timestamp" (.str now))))
        else
          .ok (setField o k (.obj (setField (setField (childOf o k) "data" v)
            "timestamp" (.str now)))) := rfl

lemma pyUpdatePath_cons₂ (o : List (String × JVal)) (k r : String) (rs : List String)
    (v : JVal) (now : String) :
    pyUpdatePath o (k :: r :: rs) v now
      = if k = "model" then pyUpdatePath (setField o k v) (r :: rs) v now
        else
          match pyUpdatePath (childOf o k) (r :: rs) v now with
          | .error e => .error e
          | .ok child' => .ok (setField o k (.obj child')) := rfl

lemma dropLast_cons_cons (k r : String) (rs : List String) :
    (k :: r :: rs).dropLast = k :: (r :: rs).dropLast := rfl

/-- Frame property of a single `dict_path` update: provided `'model'` does not
occur as a non-final key of the path, every address that neither extends nor is
extended by the path reads the same before and after. -/
lemma pyUpdatePath_frame (path : List String) : ∀ (o res : List (String × JVal))
    (v : JVal) (now : String),
    "model" ∉ path.dropLast →
    pyUpdatePath o path v now = .ok res →
    ∀ q : List String, ¬ isPfxOf path q → ¬ isPfxOf q path →
    lookupPath (.obj res) q = lookupPath (.obj o) q := by
  induction path with
  | nil =>
    intro o res v now _ _ q hpq _
    exact absurd (isPfxOf_nil q) hpq
  | cons k rest ih =>
    intro o res v now hmodel hok q hpq hqp
    cases q with
    | nil => exact absurd (isPfxOf_nil (k :: rest)) hqp
    | cons k' q' =>
      by_cases hk' : k' = k
      · rw [hk'] at hpq hqp ⊢
        cases rest with
        | nil => exact absurd ⟨q', rfl⟩ hpq
        | cons r rs =>
          have hkm : k ≠ "model" := fun hc => hmodel (by
            rw [dropLast_cons_cons]
            exact hc ▸ List.mem_cons_self _ _)
          have hmodel' : "model" ∉ (r :: rs).dropLast := fun hc => hmodel (by
            rw [dropLast_cons_cons]
            exact List.mem_cons_of_mem _ hc)
          have hq' : ¬ isPfxOf (r :: rs) q' := fun h => hpq ((isPfxOf_cons_iff _ _ _).mpr h)
          have hq'2 : ¬ isPfxOf q' (r :: rs) := fun h => hqp ((isPfxOf_cons_iff _ _ _).mpr h)
          cases q' with
          | nil => exact absurd (isPfxOf_nil _) hq'2
          | cons k'' t =>
            rw [pyUpdatePath_cons₂, if_neg hkm] at hok
            cases hinner : pyUpdatePath (childOf o k) (r :: rs) v now with
            | error e => rw [hinner] at hok; cases hok
            | ok child' =>
              rw [hinner] at hok
              cases hok
              rw [lookupPath_obj_cons, getField_setField_self, lookupPath_obj_cons]
              cases hchild : getField o k with
              | some w =>
                cases w with
                | obj fs =>
                  have hco : childOf o k = fs := by simp [childOf, hchild]
                  rw [hco] at hinner
                  exact ih fs child' v now hmodel' hinner (k'' :: t) hq' hq'2
                | null =>
                  have hco : childOf o k = [] := by simp [childOf, hchild]
                  rw [hco] at hinner
                  have hih := ih [] child' v now hmodel' hinner (k'' :: t) hq' hq'2
                  show lookupPath (JVal.obj child') (k'' :: t) = none
                  rw [hih]; rfl
                | int n =>
                  have hco : childOf o k = [] := by simp [childOf, hchild]
                  rw [hco] at hinner
                  have hih := ih [] child' v now hmodel' hinner (k'' :: t) hq' hq'2
                  show lookupPath (JVal.obj child') (k'' :: t) = none
                  rw [hih]; rfl
                | str s =>
                  have hco : childOf o k = [] := by simp [childOf, hchild]
                  rw [hco] at hinner
                  have hih := ih [] child' v now hmodel' hinner (k'' :: t) hq' hq'2
                  show lookupPath (JVal.obj child') (k'' :: t) = none
                  rw [hih]; rfl
                | list xs =>
                  have hco : childOf o k = [] := by simp [childOf, hchild]
                  rw [hco] at hinner
                  have hih := ih [] child' v now hmodel' hinner (k'' :: t) hq' hq'2
                  show lookupPath (JVal.obj child') (k'' :: t) = none
                  rw [hih]; rfl
              | none =>
                have hco : childOf o k = [] := by simp [childOf, hchild]
                rw [hco] at hinner
                have hih := ih [] child' v now hmodel' hinner (k'' :: t) hq' hq'2
                show lookupPath (JVal.obj child') (k'' :: t) = none
                rw [hih]; rfl
      · -- `k' ≠ k`: the update only touches the entry at `k`
        cases rest with
        | nil =>
          rw [pyUpdatePath_single] at hok
          by_cases hkm : k = "model"
          · rw [if_pos hkm] at hok
            cases hok
            exact lookupPath_setField_ne o _ k' v q' hk'
          · rw [if_neg hkm] at hok
            by_cases hkp : k = "problems"
            · rw [if_pos hkp] at hok
              cases hprob : problemsFieldsUpd (childOf o k) v with
              | error e => rw [hprob] at hok; cases hok
              | ok c2 =>
                rw [hprob] at hok
                cases hok
                exact lookupPath_setField_ne o _ k' _ q' hk'
            · rw [if_neg hkp] at hok
              cases hok
              exact lookupPath_setField_ne o _ k' _ q' hk'
        | cons r rs =>
          have hkm : k ≠ "model" := fun hc => hmodel (by
            rw [dropLast_cons_cons]
            exact hc ▸ List.mem_cons_self _ _)
          rw [pyUpdatePath_cons₂, if_neg hkm] at hok
          cases hinner : pyUpdatePath (childOf o k) (r :: rs) v now with
          | error e => rw [hinner] at hok; cases hok
          | ok child' =>
            rw [hinner] at hok
            cases hok
            exact lookupPath_setField_ne o _ k' _ q' hk'

/-! ### Deduplication lemmas (`list(dict.fromkeys(...))` on hashable values) -/

lemma scalarEq_self {a : JVal} (h : hashable a = true) : scalarEq a a = true := by
  cases a <;> simp_all [hashable, scalarEq]

lemma mem_dedupKeepFirstAux (l : List JVal) : ∀ (seen : List JVal) (x : JVal),
    (∀ y ∈ l, hashable y = true) →
    (x ∈ dedupKeepFirstAux scalarEq seen l ↔ (x ∈ l ∧ x ∉ seen)) := by
  induction l with
  | nil => intro seen x _; simp [dedupKeepFirstAux]
  | cons a rest ih =>
    intro seen x hhash
    have hha : hashable a = true := hhash a (List.mem_cons_self _ _)
    have hhr : ∀ y ∈ rest, hashable y = true :=
      fun y hy => hhash y (List.mem_cons_of_mem _ hy)
    by_cases hseen : (seen.any fun b => scalarEq b a) = true
    · rcases List.any_eq_true.mp hseen with ⟨b, hb, hba⟩
      have hba' : b = a := scalarEq_eq hba
      subst hba'
      rw [dedupKeepFirstAux, if_pos hseen, ih seen x hhr]
      constructor
      · rintro ⟨h1, h2⟩
        exact ⟨List.mem_cons_of_mem _ h1, h2⟩
      · rintro ⟨h1, h2⟩
        rcases List.mem_cons.mp h1 with rfl | h1
        · exact absurd hb h2
        · exact ⟨h1, h2⟩
    · have hnotseen : a ∉ seen := by
        intro hc
        exact hseen (List.any_eq_true.mpr ⟨a, hc, scalarEq_self hha⟩)
      rw [dedupKeepFirstAux, if_neg hseen]
      rw [List.mem_cons, ih (a :: seen) x hhr]
      constructor
      · rintro (rfl | ⟨h1, h2⟩)
        · exact ⟨List.mem_cons_self _ _, hnotseen⟩
        · exact ⟨List.mem_cons_of_mem _ h1,
            fun hc => h2 (List.mem_cons_of_mem _ hc)⟩
      · rintro ⟨h1, h2⟩
        rcases List.mem_cons.mp h1 with rfl | h1
        · exact Or.inl rfl
        · by_cases hxa : x = a
          · exact Or.inl hxa
          · exact Or.inr ⟨h1, by
              intro hc
              rcases List.mem_cons.mp hc with hc | hc
              · exact hxa hc
              · exact h2 hc⟩

lemma nodup_dedupKeepFirstAux (l : List JVal) : ∀ (seen : List JVal),
    (∀ y ∈ l, hashable y = true) →
    (dedupKeepFirstAux scalarEq seen l).Nodup := by
  induction l with
  | nil => intro seen _; simp [dedupKeepFirstAux]
  | cons a rest ih =>
    intro seen hhash
    have hhr : ∀ y ∈ rest, hashable y = true :=
      fun y hy => hhash y (List.mem_cons_of_mem _ hy)
    by_cases hseen : (seen.any fun b => scalarEq b a) = true
    · rw [dedupKeepFirstAux, if_pos hseen]
      exact ih seen hhr
    · rw [dedupKeepFirstAux, if_neg hseen]
      refine List.nodup_cons.mpr ⟨?_, ih (a :: seen) hhr⟩
      intro hc
      exact ((mem_dedupKeepFirstAux rest (a :: seen) a hhr).mp hc).2
        (List.mem_cons_self _ _)

lemma mem_dedupKeepFirst (l : List JVal) (x : JVal)
    (h : ∀ y ∈ l, hashable y = true) :
    x ∈ dedupKeepFirst scalarEq l ↔ x ∈ l := by
  rw [dedupKeepFirst, mem_dedupKeepFirstAux l [] x h]
  simp

lemma nodup_dedupKeepFirst (l : List JVal) (h : ∀ y ∈ l, hashable y = true) :
    (dedupKeepFirst scalarEq l).Nodup :=
  nodup_dedupKeepFirstAux l [] h

/-! ### The value written at the updated path -/

lemma lookup_parent_step (o : List (String × JVal)) (k : String) (d : List String)
    (par : List (String × JVal))
    (h : lookupPath (.obj o) (k :: d) = some (.obj par)) :
    ∃ fs, getField o k = some (.obj fs) ∧ lookupPath (.obj fs) d = some (.obj par) := by
  rw [lookupPath_obj_cons] at h
  cases hchild : getField o k with
  | none => rw [hchild] at h; simp at h
  | some w =>
    rw [hchild] at h
    cases w with
    | obj fs => exact ⟨fs, rfl, h⟩
    | null => cases d with
      | nil => simp [lookupPath] at h
      | cons x t => simp [lookupPath] at h
    | int n => cases d with
      | nil => simp [lookupPath] at h
      | cons x t => simp [lookupPath] at h
    | str s => cases d with
      | nil => simp [lookupPath] at h
      | cons x t => simp [lookupPath] at h
    | list xs => cases d with
      | nil => simp [lookupPath] at h
      | cons x t => simp [lookupPath] at h

/-- The node written by a single `dict_path` update, read back at the path:
with `par` the dict at the path's parent, the final key decides the outcome —
`'model'` stores the raw value, `'problems'` extends-and-dedups `data` and
refreshes `timestamp`, and any other final key overwrites `data` and refreshes
`timestamp` in the final dict. -/
lemma pyUpdatePath_content (path : List String) : ∀ (o par res : List (String × JVal))
    (v : JVal) (now : String),
    "model" ∉ path.dropLast →
    lookupPath (.obj o) path.dropLast = some (.obj par) →
    pyUpdatePath o path v now = .ok res →
    (path.getLast? = some "model" → lookupPath (.obj res) path = some v) ∧
    (∀ k, path.getLast? = some k → k ≠ "model" → k ≠ "problems" →
      lookupPath (.obj res) path
        = some (.obj (setField (setField (childOf par k) "data" v) "timestamp" (.str now)))) ∧
    (path.getLast? = some "problems" →
      ∃ c2, problemsFieldsUpd (childOf par "problems") v = .ok c2 ∧
        lookupPath (.obj res) path = some (.obj (setField c2 "timestamp" (.str now)))) := by
  induction path with
  | nil =>
    intro o par res v now _ _ _
    refine ⟨?_, ?_, ?_⟩
    · intro h; simp at h
    · intro k h; simp at h
    · intro h; simp at h
  | cons k rest ih =>
    intro o par res v now hmodel hpar hok
    cases rest with
    | nil =>
      have hpo : (JVal.obj o) = (JVal.obj par) := by
        simpa [lookupPath] using hpar
      injection hpo with hpo'
      subst hpo'
      refine ⟨?_, ?_, ?_⟩
      · intro hlast
        rw [List.getLast?_singleton] at hlast
        injection hlast with hlast'
        rw [pyUpdatePath_single, if_pos hlast'] at hok
        cases hok
        rw [lookupPath_obj_cons, getField_setField_self]
        rfl
      · intro k₀ hlast hk₀m hk₀p
        rw [List.getLast?_singleton] at hlast
        injection hlast with hlast'
        subst hlast'
        rw [pyUpdatePath_single, if_neg hk₀m, if_neg hk₀p] at hok
        cases hok
        rw [lookupPath_obj_cons, getField_setField_self]
        rfl
      · intro hlast
        rw [List.getLast?_singleton] at hlast
        injection hlast with hlast'
        subst hlast'
        rw [pyUpdatePath_single, if_neg (by decide), if_pos rfl] at hok
        cases hprob : problemsFieldsUpd (childOf o "problems") v with
        | error e => rw [hprob] at hok; cases hok
        | ok c2 =>
          rw [hprob] at hok
          cases hok
          refine ⟨c2, rfl, ?_⟩
          rw [lookupPath_obj_cons, getField_setField_self]
          rfl
    | cons r rs =>
      rw [dropLast_cons_cons] at hpar
      rcases lookup_parent_step o k _ par hpar with ⟨fs, hchild, hparfs⟩
      have hkm : k ≠ "model" := fun hc => hmodel (by
        rw [dropLast_cons_cons]
        exact hc ▸ List.mem_cons_self _ _)
      have hmodel' : "model" ∉ (r :: rs).dropLast := fun hc => hmodel (by
        rw [dropLast_cons_cons]
        exact List.mem_cons_of_mem _ hc)
      rw [pyUpdatePath_cons₂, if_neg hkm] at hok
      have hco : childOf o k = fs := by simp [childOf, hchild]
      rw [hco] at hok
      cases hinner : pyUpdatePath fs (r :: rs) v now with
      | error e => rw [hinner] at hok; cases hok
      | ok child' =>
        rw [hinner] at hok
        cases hok
        have IH := ih fs par child' v now hmodel' hparfs hinner
        refine ⟨?_, ?_, ?_⟩
        · intro hlast
          rw [List.getLast?_cons_cons] at hlast
          rw [lookupPath_obj_cons, getField_setField_self]
          exact IH.1 hlast
        · intro k₀ hlast hk₀m hk₀p
          rw [List.getLast?_cons_cons] at hlast
          rw [lookupPath_obj_cons, getField_setField_self]
          exact IH.2.1 k₀ hlast hk₀m hk₀p
        · intro hlast
          rw [List.getLast?_cons_cons] at hlast
          rw [lookupPath_obj_cons, getField_setField_self]
          exact IH.2.2 hlast

lemma update_json_single (o : List (String × JVal)) (p : List String) (v : JVal)
    (now : String) :
    update_json (.obj o) [p] [v] now
      = match pyUpdatePath o p v now with
        | .error e => .error e
        | .ok o' => .ok (.obj o') := by
  cases h : pyUpdatePath o p v now <;>
    simp [update_json, updateJsonGo, h]

lemma updateJsonGo_frame : ∀ (pvs : List (List String × JVal))
    (o o' : List (String × JVal)) (now : String) (q : List String),
    updateJsonGo now o pvs = .ok o' →
    (∀ pv ∈ pvs, "model" ∉ pv.1.dropLast) →
    (∀ pv ∈ pvs, ¬ isPfxOf pv.1 q ∧ ¬ isPfxOf q pv.1) →
    lookupPath (.obj o') q = lookupPath (.obj o) q := by
  intro pvs
  induction pvs with
  | nil =>
    intro o o' now q hok _ _
    simp only [updateJsonGo] at hok
    cases hok
    rfl
  | cons pv rest ih =>
    intro o o' now q hok h1 h2
    rcases pv with ⟨p, v⟩
    simp only [updateJsonGo] at hok
    cases hupd : pyUpdatePath o p v now with
    | error e => rw [hupd] at hok; cases hok
    | ok o1 =>
      rw [hupd] at hok
      have step := pyUpdatePath_frame p o o1 v now
        (h1 (p, v) (List.mem_cons_self _ _)) hupd q
        (h2 (p, v) (List.mem_cons_self _ _)).1
        (h2 (p, v) (List.mem_cons_self _ _)).2
      have tail := ih o1 o' now q hok
        (fun pv hpv => h1 pv (List.mem_cons_of_mem _ hpv))
        (fun pv hpv => h2 pv (List.mem_cons_of_mem _ hpv))
      rw [tail, step]

lemma problemsFieldsUpd_list (c : List (String × JVal)) (xs : List JVal) (v : JVal)
    (hdata : getField c "data" = some (.list xs))
    (hh : (xs ++ pyAsList v).all hashable = true) :
    problemsFieldsUpd c v
      = .ok (setField c "data" (.list (dedupKeepFirst scalarEq (xs ++ pyAsList v)))) := by
  unfold problemsFieldsUpd
  rw [hdata]
  by_cases hxs : xs = []
  · subst hxs
    have hh' : (pyAsList v).all hashable = true := by simpa using hh
    simp [pyFalsy, hh']
  · have hfal : pyFalsy (.list xs) = false := by
      simp [pyFalsy, List.isEmpty_iff, hxs]
    simp [hfal, hh]

/-! ### Claim C10 -/

/-- **C10** (counterexample).  A `dict_path` containing `'model'` as a
*non-final* key breaks the frame property: after `sub_dict['model'] = value` the
walk does not descend, so the remaining keys are applied to the *top-level* dict.
Calling `update_json` on `{"x": {"data": 1}}` with the single path
`("model", "x")` rewrites the entry at address `["x", "data"]` — an address that
neither extends nor is extended by the listed path — from `1` to `5`. -/
theorem update_json_model_midpath_counterexample :
    update_json (.obj [("x", .obj [("data", .int 1)])]) [["model", "x"]] [.int 5] "T"
      = .ok (.obj [("x", .obj [("data", .int 5), ("timestamp", .str "T")]),
          ("model", .int 5)]) ∧
    lookupPath (.obj [("x", .obj [("data", .int 1)])]) ["x", "data"] = some (.int 1) ∧
    lookupPath (.obj [("x", .obj [("data", .int 5), ("timestamp", .str "T")]),
        ("model", .int 5)]) ["x", "data"] = some (.int 5) ∧
    ¬ isPfxOf ["model", "x"] ["x", "data"] ∧ ¬ isPfxOf ["x", "data"] ["model", "x"] := by
  refine ⟨rfl, rfl, rfl, ?_, ?_⟩
  · rintro ⟨r, hr⟩
    injection hr with h1 _
    exact absurd h1 (by decide)
  · rintro ⟨r, hr⟩
    injection hr with h1 _
    exact absurd h1 (by decide)

/-- **C10** (amended).  For `update_json` calls whose listed paths use `'model'`
only as a final key:
1. (frame) every address that neither extends nor is extended by a listed path
   reads the same value before and after the call;
2. (ordinary path) a single-path update whose final key is neither `'model'`
   nor `'problems'` rewrites exactly `data` and `timestamp` in the dict at the
   path — every other field of that dict is preserved;
3. (problems path) a single-path update ending in `'problems'` extends the
   existing `data` list with the new value(s) and deduplicates it keeping first
   occurrences — it does not replace it — and every previously logged problem
   is still present afterwards. -/
theorem update_json_frame_and_targets :
    (∀ (doc doc' : JVal) (paths : List (List String)) (vals : List JVal)
        (now : String) (q : List String),
      update_json doc paths vals now = .ok doc' →
      (∀ p ∈ paths, "model" ∉ p.dropLast) →
      (∀ p ∈ paths, ¬ isPfxOf p q ∧ ¬ isPfxOf q p) →
      lookupPath doc' q = lookupPath doc q) ∧
    (∀ (o res par : List (String × JVal)) (p : List String) (v : JVal)
        (now : String) (k : String),
      "model" ∉ p.dropLast → p.getLast? = some k → k ≠ "model" → k ≠ "problems" →
      lookupPath (.obj o) p.dropLast = some (.obj par) →
      update_json (.obj o) [p] [v] now = .ok (.obj res) →
      lookupPath (.obj res) p
          = some (.obj (setField (setField (childOf par k) "data" v)
              "timestamp" (.str now))) ∧
        getField (setField (setField (childOf par k) "data" v)
            "timestamp" (.str now)) "data" = some v ∧
        getField (setField (setField (childOf par k) "data" v)
            "timestamp" (.str now)) "timestamp" = some (.str now) ∧
        (∀ k', k' ≠ "data" → k' ≠ "timestamp" →
          getField (setField (setField (childOf par k) "data" v)
              "timestamp" (.str now)) k' = getField (childOf par k) k')) ∧
    (∀ (o res par : List (String × JVal)) (p : List String) (v : JVal)
        (now : String) (xs : List JVal),
      "model" ∉ p.dropLast → p.getLast? = some "problems" →
      lookupPath (.obj o) p.dropLast = some (.obj par) →
      getField (childOf par "problems") "data" = some (.list xs) →
      (xs ++ pyAsList v).all hashable = true →
      update_json (.obj o) [p] [v] now = .ok (.obj res) →
      lookupPath (.obj res) p
          = some (.obj (setField (setField (childOf par "problems") "data"
              (.list (dedupKeepFirst scalarEq (xs ++ pyAsList v))))
              "timestamp" (.str now))) ∧
        (∀ x ∈ xs, x ∈ dedupKeepFirst scalarEq (xs ++ pyAsList v)) ∧
        (dedupKeepFirst scalarEq (xs ++ pyAsList v)).Nodup) := by
  have hashAll : ∀ (xs : List JVal) (v : JVal),
      (xs ++ pyAsList v).all hashable = true →
      ∀ y ∈ xs ++ pyAsList v, hashable y = true := by
    intro xs v hh y hy
    exact List.all_eq_true.mp hh y hy
  refine ⟨?_, ?_, ?_⟩
  · intro doc doc' paths vals now q hok h1 h2
    cases doc with
    | obj o =>
      have hok2 : (match updateJsonGo now o (paths.zip vals) with
          | .error e => (Except.error e : Except PyErr JVal)
          | .ok o' => .ok (.obj o')) = .ok doc' := hok
      cases hgo : updateJsonGo now o (paths.zip vals) with
      | error e => rw [hgo] at hok2; cases hok2
      | ok o' =>
        rw [hgo] at hok2
        cases hok2
        exact updateJsonGo_frame (paths.zip vals) o o' now q hgo
          (fun pv hpv => h1 pv.1 (List.of_mem_zip hpv).1)
          (fun pv hpv => h2 pv.1 (List.of_mem_zip hpv).1)
    | null => simp [update_json] at hok
    | int n => simp [update_json] at hok
    | str s => simp [update_json] at hok
    | list xs => simp [update_json] at hok
  · intro o res par p v now k hmodel hlast hkm hkp hpar hok
    rw [update_json_single] at hok
    cases hupd : pyUpdatePath o p v now with
    | error e => rw [hupd] at hok; cases hok
    | ok r1 =>
      rw [hupd] at hok
      injection hok with hok'
      injection hok' with hok''
      subst hok''
      refine ⟨(pyUpdatePath_content p o par r1 v now hmodel hpar hupd).2.1 k hlast hkm hkp,
        ?_, ?_, ?_⟩
      · rw [getField_setField_ne _ _ _ _ (by decide), getField_setField_self]
      · rw [getField_setField_self]
      · intro k' hk'd hk't
        rw [getField_setField_ne _ _ _ _ hk't, getField_setField_ne _ _ _ _ hk'd]
  · intro o res par p v now xs hmodel hlast hpar hdata hh hok
    rw [update_json_single] at hok
    cases hupd : pyUpdatePath o p v now with
    | error e => rw [hupd] at hok; cases hok
    | ok r1 =>
      rw [hupd] at hok
      injection hok with hok'
      injection hok' with hok''
      subst hok''
      rcases (pyUpdatePath_content p o par r1 v now hmodel hpar hupd).2.2 hlast
        with ⟨c2, hc2, hlook⟩
      rw [problemsFieldsUpd_list _ xs v hdata hh] at hc2
      injection hc2 with hc2'
      subst hc2'
      refine ⟨hlook, ?_, nodup_dedupKeepFirst _ (hashAll xs v hh)⟩
      intro x hx
      exact (mem_dedupKeepFirst _ x (hashAll xs v hh)).mpr
        (List.mem_append_left _ hx)

/-- Witness for `update_json_frame_and_targets`: a concrete problems-path update
extends and dedups the existing `data` list. -/
theorem update_json_frame_and_targets_witness :
    lookupPath
        (.obj [("problems", .obj [("data", .list [.str "p1", .str "p2"]),
          ("timestamp", .str "T")])]) ["problems"]
      = some (.obj (setField (setField
          (childOf [("problems", .obj [("data", .list [.str "p1"]), ("timestamp", .null)])]
            "problems") "data"
          (.list (dedupKeepFirst scalarEq
            ([.str "p1"] ++ pyAsList (.list [.str "p1", .str "p2"])))))
          "timestamp" (.str "T"))) ∧
    (∀ x ∈ ([.str "p1"] : List JVal),
      x ∈ dedupKeepFirst scalarEq ([.str "p1"] ++ pyAsList (.list [.str "p1", .str "p2"]))) ∧
    (dedupKeepFirst scalarEq
      ([.str "p1"] ++ pyAsList (.list [.str "p1", .str "p2"]))).Nodup :=
  update_json_frame_and_targets.2.2
    [("problems", .obj [("data", .list [.str "p1"]), ("timestamp", .null)])]
    [("problems", .obj [("data", .list [.str "p1", .str "p2"]), ("timestamp", .str "T")])]
    [("problems", .obj [("data", .list [.str "p1"]), ("timestamp", .null)])]
    ["problems"] (.list [.str "p1", .str "p2"]) "T" [.str "p1"]
    (by simp) (by rfl) (by rfl) (by rfl) (by rfl) (by rfl)

/-! ## Validation predicates (step3 `check_dict_paths`, `suspect_ccp_terms`,
`suspect_ltd_terms`)

These Python functions are embedded with their exception behaviour intact:
`path[-1]` raises `IndexError` on an empty list, `.lower()` raises
`AttributeError` on a non-string, `key in temp_dict` raises `TypeError` when
`temp_dict` is an `int` or `None`, etc. -/

/-- Contiguous-sublist test over character lists (Python `pat in s` for
strings). -/
def sublistB (pat : List Char) : List Char → Bool
  | [] => pat.isEmpty
  | c :: rest => pat.isPrefixOf (c :: rest) || sublistB pat rest

/-- Python `pat in s` on strings. -/
def substrB (pat s : String) : Bool := sublistB pat.data s.data

/-- `key.lower().replace("-", " ")` — defined on strings only; the caller raises
`AttributeError` for non-strings. -/
def pyNormStr (s : String) : String :=
  ⟨s.data.map (fun c => if c.toLower = '-' then ' ' else c.toLower)⟩

/-- `.lower().replace("-", " ")` on a `JVal`: `AttributeError` unless a string. -/
def pyNormKey : JVal → Except PyErr String
  | .str s => .ok (pyNormStr s)
  | _ => .error .attributeError

/-- Python `path[-1]`: last element of a list (or last character of a string);
`IndexError` when empty, `TypeError`/`KeyError` for non-sequences. -/
def pyLastItem : JVal → Except PyErr JVal
  | .list xs =>
    match xs.getLast? with
    | some v => .ok v
    | none => .error .indexError
  | .str s =>
    match s.data.getLast? with
    | some c => .ok (.str ⟨[c]⟩)
    | none => .error .indexError
  | .obj _ => .error .keyError
  | _ => .error .typeError

/-- Python `for key in v`: iterate a list's elements, a string's characters or a
dict's keys; `TypeError` for `int`/`None`. -/
def pyIterList : JVal → Except PyErr (List JVal)
  | .list xs => .ok xs
  | .str s => .ok (s.data.map (fun c => .str ⟨[c]⟩))
  | .obj fs => .ok (fs.map (fun p => .str p.1))
  | _ => .error .typeError

/-- Python `key in container`.  `TypeError` when the container is `int`/`None`
(not iterable), or for an unhashable key tested against a dict, or for a
non-string key tested against a string.  (List membership compares with `==`;
as everywhere in this embedding, structural equality of unhashable values is
approximated by `scalarEq`, which the claims never exercise.) -/
def pyContains (container key : JVal) : Except PyErr Bool :=
  match container with
  | .obj fs =>
    match key with
    | .list _ => .error .typeError
    | .obj _ => .error .typeError
    | .str s => .ok (fs.any (fun p => p.1 = s))
    | _ => .ok false
  | .list xs => .ok (xs.any (fun e => scalarEq e key))
  | .str s =>
    match key with
    | .str pat => .ok (substrB pat s)
    | _ => .error .typeError
  | _ => .error .typeError

/-- Python index into a list with an `Int` (negative indices count from the
end); `IndexError` when out of range. -/
def pyListIdx (xs : List JVal) (n : Int) : Except PyErr JVal :=
  let i : Int := if n < 0 then n + xs.length else n
  if h : 0 ≤ i ∧ i.toNat < xs.length then .ok (xs.get ⟨i.toNat, h.2⟩)
  else .error .indexError

/-- Python `container[key]`. -/
def pyGetItem (container key : JVal) : Except PyErr JVal :=
  match container with
  | .obj fs =>
    match key with
    | .str s =>
      match getField fs s with
      | some v => .ok v
      | none => .error .keyError
    | _ => .error .keyError
  | .list xs =>
    match key with
    | .int n => pyListIdx xs n
    | _ => .error .typeError
  | _ => .error .typeError

/-- The inner `for key in path` walk of `check_dict_paths`: returns `true` when
the path is invalid (a key was missing and the loop broke). -/
def cdpDescend (temp : JVal) : List JVal → Except PyErr Bool
  | [] => .ok false
  | k :: rest =>
    match pyContains temp k with
    | .error e => .error e
    | .ok false => .ok true
    | .ok true =>
      match pyGetItem temp k with
      | .error e => .error e
      | .ok t => cdpDescend t rest

/-- Embeds step3's `check_dict_paths(dict_paths, input_dict)`: the list of keys
of `dict_paths` whose paths do not exist in `input_dict`. -/
def check_dict_paths (dict_paths : List (String × JVal)) (input_dict : JVal) :
    Except PyErr (List String) :=
  match dict_paths with
  | [] => .ok []
  | (i, path) :: rest =>
    match pyIterList path with
    | .error e => .error e
    | .ok keys =>
      match cdpDescend input_dict keys with
      | .error e => .error e
      | .ok bad =>
        match check_dict_paths rest input_dict with
        | .error e => .error e
        | .ok tail => .ok (if bad then i :: tail else tail)

/-- `any(term in key.lower().replace("-", " ") for key in keys for term in terms)`
with Python's evaluation order and short-circuiting. -/
def anyKeyHasTerm (terms : List String) : List JVal → Except PyErr Bool
  | [] => .ok false
  | k :: rest =>
    match pyNormKey k with
    | .error e => .error e
    | .ok n =>
      if terms.any (fun t => substrB t n) then .ok true
      else anyKeyHasTerm terms rest

/-- One path's disjunct inside `suspect_ccp_terms`:
`any(suspect in path[-1]...) or not any(req in key... for key in path ...)`. -/
def ccpPathSuspect (black_list required : List String) (path : JVal) :
    Except PyErr Bool :=
  match pyLastItem path with
  | .error e => .error e
  | .ok last =>
    match pyNormKey last with
    | .error e => .error e
    | .ok lastN =>
      if black_list.any (fun b => substrB b lastN) then .ok true
      else
        match pyIterList path with
        | .error e => .error e
        | .ok keys =>
          match anyKeyHasTerm required keys with
          | .error e => .error e
          | .ok r => .ok (!r)

/-- Short-circuiting `any` of an exception-throwing test over the values of
`dict_paths`. -/
def anyPathB (test : JVal → Except PyErr Bool) :
    List (String × JVal) → Except PyErr Bool
  | [] => .ok false
  | (_, path) :: rest =>
    match test path with
    | .error e => .error e
    | .ok true => .ok true
    | .ok false => anyPathB test rest

/-- Embeds step3's `suspect_ccp_terms` (the Python function returns `True` or
falls through returning `None`; both falsy outcomes are modelled as `false`). -/
def suspect_ccp_terms (dict_paths : List (String × JVal))
    (black_list : List String := ["escrow", "inventor", "receivable", "tax", "total"])
    (required : List String := ["current"]) : Except PyErr Bool :=
  anyPathB (ccpPathSuspect black_list required) dict_paths

/-- One path's disjunct in the first `any` of `suspect_ltd_terms`:
`any(gray in key ...) and not any(white in key ...)` (the white list is only
evaluated when the gray test fires, as in Python). -/
def ltdPathGray (gray_list white_list : List String) (path : JVal) :
    Except PyErr Bool :=
  match pyIterList path with
  | .error e => .error e
  | .ok keys =>
    match anyKeyHasTerm gray_list keys with
    | .error e => .error e
    | .ok false => .ok false
    | .ok true =>
      match anyKeyHasTerm white_list keys with
      | .error e => .error e
      | .ok w => .ok (!w)

/-- One path's disjunct in the second `any` of `suspect_ltd_terms`:
`any(suspect in path[-1]... for suspect in black_list)`. -/
def ltdPathBlack (black_list : List String) (path : JVal) : Except PyErr Bool :=
  match pyLastItem path with
  | .error e => .error e
  | .ok last =>
    match pyNormKey last with
    | .error e => .error e
    | .ok lastN => .ok (black_list.any (fun b => substrB b lastN))

/-- Embeds step3's `suspect_ltd_terms`. -/
def suspect_ltd_terms (dict_paths : List (String × JVal))
    (gray_list : List String := ["current", "short term"])
    (white_list : List String := ["non current", "long term", "term debt"])
    (black_list : List String := ["tax", "total"]) : Except PyErr Bool :=
  match anyPathB (ltdPathGray gray_list white_list) dict_paths with
  | .error e => .error e
  | .ok true => .ok true
  | .ok false => anyPathB (ltdPathBlack black_list) dict_paths

example :
    suspect_ccp_terms [("1", .list [.str "Current assets", .str "Inventories"])]
      = .ok true := by rfl
example :
    suspect_ccp_terms [("1", .list [.str "Current assets", .str "Cash"])]
      = .ok false := by rfl
example :
    suspect_ltd_terms [("1", .list [.str "Current liabilities", .str "Term debt"])]
      = .ok false := by rfl
example :
    suspect_ltd_terms [("1", .list [.str "Current liabilities", .str "Accounts payable"])]
      = .ok true := by rfl
example :
    check_dict_paths [("1", .list [.str "Cash", .str "oops"])] (.obj [("Cash", .int 5)])
      = .error .typeError := by rfl
example :
    check_dict_paths [("1", .list [.str "Cash"]), ("2", .list [.str "Gold"])]
      (.obj [("Cash", .list [.int 1])])
      = .ok ["2"] := by rfl

/-! ### Claim C9 -/

/-- A list of `int` leaves (a row of table values). -/
def isIntList : List JVal → Bool
  | [] => true
  | .int _ :: r => isIntList r
  | _ => false

mutual

/-- The shape of the balance-sheet table JSON that `check_dict_paths` traverses
safely: nested dicts whose leaves are lists of ints. -/
def shapedVal : JVal → Bool
  | .obj fs => shapedFields fs
  | .list xs => isIntList xs
  | _ => false

def shapedFields : List (String × JVal) → Bool
  | [] => true
  | (_, v) :: r => shapedVal v && shapedFields r

end

/-- A `dict_paths` value that is a list of strings (the shape the prompts ask
the model for). -/
def isStrListVal : JVal → Bool
  | .list xs => xs.all (fun x => match x with | .str _ => true | _ => false)
  | _ => false

lemma shapedFields_mem (fs : List (String × JVal)) (h : shapedFields fs = true) :
    ∀ p ∈ fs, shapedVal p.2 = true := by
  induction fs with
  | nil => intro p hp; cases hp
  | cons q rest ih =>
    intro p hp
    rcases q with ⟨k, v⟩
    rw [shapedFields, Bool.and_eq_true] at h
    rcases List.mem_cons.mp hp with rfl | hp
    · exact h.1
    · exact ih h.2 p hp

lemma isIntList_mem (xs : List JVal) (h : isIntList xs = true) :
    ∀ e ∈ xs, ∃ n, e = JVal.int n := by
  induction xs with
  | nil => intro e he; cases he
  | cons a rest ih =>
    intro e he
    cases a with
    | int n =>
      rcases List.mem_cons.mp he with rfl | he
      · exact ⟨n, rfl⟩
      · exact ih (by rwa [isIntList] at h) e he
    | null => simp [isIntList] at h
    | str s => simp [isIntList] at h
    | list ys => simp [isIntList] at h
    | obj fs => simp [isIntList] at h

lemma getField_isSome_of_any (fs : List (String × JVal)) (s : String)
    (h : (fs.any fun p => p.1 = s) = true) : ∃ v, getField fs s = some v := by
  induction fs with
  | nil => simp at h
  | cons q rest ih =>
    by_cases hq : q.1 = s
    · exact ⟨q.2, by unfold getField; rw [List.find?_cons_of_pos _ (by simpa using hq)]; rfl⟩
    · rcases ih (by
        rcases List.any_eq_true.mp h with ⟨p, hp, hps⟩
        rcases List.mem_cons.mp hp with rfl | hp
        · exact absurd (by simpa using hps) hq
        · exact List.any_eq_true.mpr ⟨p, hp, hps⟩) with ⟨v, hv⟩
      refine ⟨v, ?_⟩
      unfold getField at hv ⊢
      rwa [List.find?_cons_of_neg _ (by simpa using hq)]

lemma getField_mem (fs : List (String × JVal)) (s : String) (v : JVal)
    (h : getField fs s = some v) : (s, v) ∈ fs := by
  unfold getField at h
  cases hf : fs.find? (fun p => p.1 = s) with
  | none => rw [hf] at h; cases h
  | some p =>
    rw [hf] at h
    injection h with h'
    have hp1 : p.1 = s := by simpa using List.find?_some hf
    have hmem := List.mem_of_find?_eq_some hf
    have : p = (s, v) := by
      rcases p with ⟨a, b⟩
      simp at hp1 h'
      simp [hp1, h']
    exact this ▸ hmem

lemma cdpDescend_ok (keys : List JVal) : ∀ temp : JVal, shapedVal temp = true →
    (∀ k ∈ keys, ∃ s, k = JVal.str s) → ∃ b, cdpDescend temp keys = .ok b := by
  induction keys with
  | nil => intro temp _ _; exact ⟨false, rfl⟩
  | cons k rest ih =>
    intro temp hshape hkeys
    rcases hkeys k (List.mem_cons_self _ _) with ⟨s, rfl⟩
    cases temp with
    | obj fs =>
      by_cases hany : (fs.any fun p => p.1 = s) = true
      · rcases getField_isSome_of_any fs s hany with ⟨v, hv⟩
        have hvshape : shapedVal v = true :=
          shapedFields_mem fs (by rwa [shapedVal] at hshape) (s, v) (getField_mem fs s v hv)
        rcases ih v hvshape (fun k hk => hkeys k (List.mem_cons_of_mem _ hk)) with ⟨b, hb⟩
        refine ⟨b, ?_⟩
        rw [cdpDescend]
        simp only [pyContains, hany]
        simp only [pyGetItem, hv]
        exact hb
      · refine ⟨true, ?_⟩
        rw [cdpDescend]
        simp only [pyContains, Bool.not_eq_true] at hany ⊢
        rw [hany]
    | list xs =>
      have hints := isIntList_mem xs (by rwa [shapedVal] at hshape)
      have hno : (xs.any fun e => scalarEq e (.str s)) = false := by
        rw [List.any_eq_false]
        intro e he
        rcases hints e he with ⟨n, rfl⟩
        simp [scalarEq]
      refine ⟨true, ?_⟩
      rw [cdpDescend]
      simp only [pyContains, hno]
    | null => simp [shapedVal] at hshape
    | int n => simp [shapedVal] at hshape
    | str t => simp [shapedVal] at hshape

lemma strListVal_elim (path : JVal) (h : isStrListVal path = true) :
    ∃ xs, path = JVal.list xs ∧ ∀ k ∈ xs, ∃ s, k = JVal.str s := by
  cases path with
  | list xs =>
    refine ⟨xs, rfl, ?_⟩
    intro k hk
    have := List.all_eq_true.mp (by rwa [isStrListVal] at h) k hk
    cases k with
    | str s => exact ⟨s, rfl⟩
    | null => cases this
    | int n => cases this
    | list ys => cases this
    | obj fs => cases this
  | null => simp [isStrListVal] at h
  | int n => simp [isStrListVal] at h
  | str s => simp [isStrListVal] at h
  | obj fs => simp [isStrListVal] at h

lemma anyKeyHasTerm_ok (terms : List String) (keys : List JVal)
    (h : ∀ k ∈ keys, ∃ s, k = JVal.str s) :
    ∃ b, anyKeyHasTerm terms keys = .ok b := by
  induction keys with
  | nil => exact ⟨false, rfl⟩
  | cons k rest ih =>
    rcases h k (List.mem_cons_self _ _) with ⟨s, rfl⟩
    rcases ih (fun k hk => h k (List.mem_cons_of_mem _ hk)) with ⟨b, hb⟩
    by_cases ht : (terms.any fun t => substrB t (pyNormStr s)) = true
    · exact ⟨true, by rw [anyKeyHasTerm]; simp [pyNormKey, ht]⟩
    · exact ⟨b, by rw [anyKeyHasTerm]; simp [pyNormKey, ht]; exact hb⟩

lemma anyPathB_ok (test : JVal → Except PyErr Bool)
    (paths : List (String × JVal))
    (h : ∀ e ∈ paths, ∃ b, test e.2 = .ok b) :
    ∃ b, anyPathB test paths = .ok b := by
  induction paths with
  | nil => exact ⟨false, rfl⟩
  | cons e rest ih =>
    rcases e with ⟨i, path⟩
    rcases h (i, path) (List.mem_cons_self _ _) with ⟨b, hb⟩
    rcases ih (fun e he => h e (List.mem_cons_of_mem _ he)) with ⟨b', hb'⟩
    cases b with
    | true => exact ⟨true, by rw [anyPathB]; simp [hb]⟩
    | false => exact ⟨b', by rw [anyPathB]; simp [hb]; exact hb'⟩

/-- **C9** (counterexample).  The claim says the validation predicates never
raise, "including paths that are empty lists".  But `suspect_ccp_terms`
evaluates `path[-1]` before anything else, so a dictionary containing one empty
key-path makes it raise `IndexError`. -/
theorem suspect_ccp_terms_empty_path_counterexample :
    suspect_ccp_terms [("1", .list [])] = .error .indexError := rfl

/-- **C9** (amended).  The validation predicates are pure (they are functions of
their arguments with no effect besides the returned value) and they are total on
the shapes the pipeline feeds them: `check_dict_paths` never raises when the
companion document is a nest of dicts with int-list leaves and every path is a
list of strings, and `suspect_ccp_terms` / `suspect_ltd_terms` never raise when
every path is a *non-empty* list of strings.  (They do raise on an empty path —
`path[-1]` — or on non-string path elements — `.lower()` — so the claim's
unrestricted totality fails.) -/
theorem validation_predicates_totality :
    (∀ (dict_paths : List (String × JVal)) (input : JVal),
      shapedVal input = true →
      (∀ e ∈ dict_paths, isStrListVal e.2 = true) →
      ∃ l, check_dict_paths dict_paths input = .ok l) ∧
    (∀ dict_paths : List (String × JVal),
      (∀ e ∈ dict_paths, isStrListVal e.2 = true ∧ e.2 ≠ .list []) →
      ∃ b, suspect_ccp_terms dict_paths = .ok b) ∧
    (∀ dict_paths : List (String × JVal),
      (∀ e ∈ dict_paths, isStrListVal e.2 = true ∧ e.2 ≠ .list []) →
      ∃ b, suspect_ltd_terms dict_paths = .ok b) := by
  have lastStr : ∀ (xs : List JVal), xs ≠ [] → (∀ k ∈ xs, ∃ s, k = JVal.str s) →
      ∃ s, xs.getLast? = some (JVal.str s) := by
    intro xs hne hstr
    rcases List.getLast?_eq_getLast xs hne with hlast
    rcases hstr (xs.getLast hne) (List.getLast_mem hne) with ⟨s, hs⟩
    exact ⟨s, by rw [hlast, hs]⟩
  have ccpPath_ok : ∀ path : JVal, isStrListVal path = true → path ≠ .list [] →
      ∃ b, ccpPathSuspect ["escrow", "inventor", "receivable", "tax", "total"]
        ["current"] path = .ok b := by
    intro path hstr hne
    rcases strListVal_elim path hstr with ⟨xs, rfl, hall⟩
    have hxs : xs ≠ [] := fun hc => hne (by rw [hc])
    rcases lastStr xs hxs hall with ⟨s, hs⟩
    rcases anyKeyHasTerm_ok ["current"] xs hall with ⟨r, hr⟩
    rw [ccpPathSuspect]
    simp only [pyLastItem, hs, pyNormKey]
    by_cases hb : (["escrow", "inventor", "receivable", "tax", "total"].any
        fun b => substrB b (pyNormStr s)) = true
    · exact ⟨true, by simp [hb]⟩
    · refine ⟨!r, ?_⟩
      simp only [hb]
      simp only [pyIterList, hr]
      rfl
  refine ⟨?_, ?_, ?_⟩
  · intro dict_paths input hshape hstr
    induction dict_paths with
    | nil => exact ⟨[], rfl⟩
    | cons e rest ih =>
      rcases e with ⟨i, path⟩
      rcases strListVal_elim path (hstr (i, path) (List.mem_cons_self _ _))
        with ⟨xs, rfl, hall⟩
      rcases cdpDescend_ok xs input hshape hall with ⟨b, hb⟩
      rcases ih (fun e he => hstr e (List.mem_cons_of_mem _ he)) with ⟨tail, htail⟩
      refine ⟨if b then i :: tail else tail, ?_⟩
      rw [check_dict_paths]
      simp only [pyIterList, hb, htail]
  · intro dict_paths h
    exact anyPathB_ok _ dict_paths
      (fun e he => ccpPath_ok e.2 (h e he).1 (h e he).2)
  · intro dict_paths h
    have gray_ok : ∀ e ∈ dict_paths,
        ∃ b, ltdPathGray ["current", "short term"]
          ["non current", "long term", "term debt"] e.2 = .ok b := by
      intro e he
      rcases strListVal_elim e.2 (h e he).1 with ⟨xs, hxs, hall⟩
      rcases anyKeyHasTerm_ok ["current", "short term"] xs hall with ⟨g, hg⟩
      rcases anyKeyHasTerm_ok ["non current", "long term", "term debt"] xs hall
        with ⟨w, hw⟩
      rw [ltdPathGray, hxs]
      simp only [pyIterList, hg]
      cases g with
      | false => exact ⟨false, rfl⟩
      | true => exact ⟨!w, by rw [hw]⟩
    have black_ok : ∀ e ∈ dict_paths,
        ∃ b, ltdPathBlack ["tax", "total"] e.2 = .ok b := by
      intro e he
      rcases strListVal_elim e.2 (h e he).1 with ⟨xs, hxs, hall⟩
      have hxsne : xs ≠ [] := fun hc => (h e he).2 (by rw [hxs, hc])
      rcases lastStr xs hxsne hall with ⟨s, hs⟩
      rw [ltdPathBlack, hxs]
      simp only [pyLastItem, hs, pyNormKey]
      exact ⟨_, rfl⟩
    rcases anyPathB_ok _ dict_paths gray_ok with ⟨g, hg⟩
    rcases anyPathB_ok _ dict_paths black_ok with ⟨b, hb⟩
    rw [suspect_ltd_terms, hg]
    cases g with
    | true => exact ⟨true, rfl⟩
    | false => exact ⟨b, hb⟩

/-- Witness for `validation_predicates_totality` at a concrete table and
concrete non-empty string paths. -/
theorem validation_predicates_totality_witness :
    (∃ l, check_dict_paths [("1", .list [.str "Cash"])]
      (.obj [("Cash", .list [.int 1])]) = .ok l) ∧
    (∃ b, suspect_ccp_terms [("1", .list [.str "Current assets", .str "Cash"])]
      = .ok b) ∧
    (∃ b, suspect_ltd_terms [("1", .list [.str "Long-term debt"])] = .ok b) :=
  ⟨validation_predicates_totality.1 [("1", .list [.str "Cash"])]
      (.obj [("Cash", .list [.int 1])]) (by rfl)
      (by intro e he; simp at he; rw [he]; rfl),
    validation_predicates_totality.2.1 [("1", .list [.str "Current assets", .str "Cash"])]
      (by intro e he; simp at he; rw [he]; exact ⟨rfl, by simp⟩),
    validation_predicates_totality.2.2 [("1", .list [.str "Long-term debt"])]
      (by intro e he; simp at he; rw [he]; exact ⟨rfl, by simp⟩)⟩

/-! ## Tiered escalation in step2 `get_sum_units`

The decisions handed back by `count_votes` for the two tiers (mini with 3
votes, then GPT-4o single-shot) are inputs of the embedding; the function below
is the per-tier validation plus the two-iteration escalation loop, with the
`problems_list = []` reset at the top of each iteration exactly as in the
source. -/

def digitsToNatAux : List Char → Nat → Option Nat
  | [], acc => some acc
  | c :: r, acc =>
    if c.isDigit then digitsToNatAux r (acc * 10 + (c.toNat - 48)) else none

def digitsToNat (cs : List Char) : Option Nat :=
  if cs.isEmpty then none else digitsToNatAux cs 0

def parseIntChars (cs : List Char) : Option Int :=
  match cs with
  | '-' :: r => (digitsToNat r).map (fun n => -(n : Int))
  | _ => (digitsToNat cs).map (fun n => (n : Int))

/-- `convert_model_output(model_output, 'int')` (step2) for the integer
instantiation used by `get_sum_units`: `int(ast.literal_eval(model_output))`
with every exception swallowed into `None`.  Integer literals (with surrounding
whitespace) convert; anything else yields `None`.  (Float literals, which
`int()` would truncate, do not occur in this stage's outputs.) -/
def convert_model_output_int (s : String) : Option Int :=
  parseIntChars (pyStripChars s.data)

/-- One tier iteration of `get_sum_units`: the fresh per-tier `problems_list`
and the accepted units (`None` unless validation passed).  `decision` is the
tier's `count_votes` result (`none` models Python `None`). -/
def sumUnitsTier (decision : Option String) : List String × Option Int :=
  match decision with
  | none => (["units: sum reporting units not found"], none)
  | some s =>
    if s = "null" ∨ s = "None" then (["units: sum reporting units not found"], none)
    else
      match convert_model_output_int s with
      | none => (["units: sum reporting units not convertible to int"], none)
      | some u =>
        if u = 0 then (["units: sum reporting units not convertible to int"], none)
        else if ¬(u = 1 ∨ u = 1000 ∨ u = 1000000) then
          (["units: sum reporting units out of range"], none)
        else ([], some u)

/-- Outcome of `get_sum_units`: the `problems_list` that reaches `update_json`
after the loop, the accepted `unit_dict` values, and how many tiers ran. -/
structure SumUnitsResult where
  problems : List String
  sum_units : Option Int
  sum_divider : Option Int
  tiersRun : Nat
deriving DecidableEq

/-- Embeds step2's `get_sum_units` escalation loop over the two tier decisions
`d0` (mini, 3 votes) and `d1` (GPT-4o).  `problems_list` is re-created empty at
the top of each iteration, so after the loop it holds only the problems of the
last tier that ran; `unit_dict` is filled only by a tier that validates
(`sum_divider = 10**6 / units`, exact for the three legal unit values). -/
def get_sum_units (d0 d1 : Option String) : SumUnitsResult :=
  let t0 := sumUnitsTier d0
  if t0.1 = [] then
    { problems := [], sum_units := t0.2,
      sum_divider := t0.2.map (fun u => 1000000 / u), tiersRun := 1 }
  else
    let t1 := sumUnitsTier d1
    { problems := t1.1, sum_units := t1.2,
      sum_divider := t1.2.map (fun u => 1000000 / u), tiersRun := 2 }

example : get_sum_units (some "1000000") (some "x")
    = ⟨[], some 1000000, some 1, 1⟩ := by decide
example : get_sum_units (some "None") (some "abc")
    = ⟨["units: sum reporting units not convertible to int"], none, none, 2⟩ := by decide

/-! ### Claim C3 -/

/-- **C3** (counterexample).  The claim's own escalation scenario: the cheap
tier answers `7` (failing the `{1, 1000, 1000000}` range check) and the strong
tier answers `1000` (valid).  The persisted problem list is empty — the cheap
tier's "out of range" problem has been discarded by the per-tier
`problems_list = []` reset, contradicting the claim that it is retained. -/
theorem get_sum_units_problems_dropped_counterexample :
    get_sum_units (some "7") (some "1000")
      = ⟨[], some 1000, some 1000, 2⟩ ∧
    sumUnitsTier (some "7") = (["units: sum reporting units out of range"], none) := by
  exact ⟨by decide, by decide⟩

/-- **C3** (amended).  When the cheap tier's decision fails validation, the
strong tier is attempted and the problem list that is persisted afterwards is
exactly the list produced by the strong tier's own attempt: the cheap tier's
problems are discarded, whether or not the strong tier succeeds. -/
theorem get_sum_units_last_tier_problems (d0 d1 : Option String)
    (h : (sumUnitsTier d0).1 ≠ []) :
    get_sum_units d0 d1
      = ⟨(sumUnitsTier d1).1, (sumUnitsTier d1).2,
          (sumUnitsTier d1).2.map (fun u => 1000000 / u), 2⟩ := by
  unfold get_sum_units
  rw [if_neg h]

/-- Witness for `get_sum_units_last_tier_problems` at the cheap-tier answer
`7` and strong-tier answer `1000`. -/
theorem get_sum_units_last_tier_problems_witness :
    get_sum_units (some "7") (some "1000")
      = ⟨(sumUnitsTier (some "1000")).1, (sumUnitsTier (some "1000")).2,
          (sumUnitsTier (some "1000")).2.map (fun u => 1000000 / u), 2⟩ :=
  get_sum_units_last_tier_problems (some "7") (some "1000") (by decide)

/-! ## Step3 `get_ccp`: CCP extraction with supervisor review

The per-tier `count_votes` decisions (`d0` for the mini tier, `d1` for GPT-4o)
and the supervisor's `count_votes` decisions (`sup0`, `sup1`, used only when the
corresponding tier's paths look suspect) are inputs of the embedding, as is the
value-date `column` that `get_sums_per_key_paths` reads from the log file. -/

/-- `str.lower()`. -/
def pyLowerStr (s : String) : String := ⟨s.data.map Char.toLower⟩

/-- Embeds step3's `find_key(table_json, search_term)`: the first top-level key
containing `search_term` case-insensitively. -/
def find_key (fields : List (String × JVal)) (term : String) : Option String :=
  (fields.find? (fun p => substrB term (pyLowerStr p.1))).map (fun p => p.1)

/-- Python `int(x)` as used inside `get_dict_path_value`'s `try`: ints convert,
integer strings parse, everything else fails (`None` after the bare except). -/
def pyIntOfVal : JVal → Option Int
  | .int n => some n
  | .str s => parseIntChars (pyStripChars s.data)
  | _ => none

/-- The unguarded `for key in dict_path: input_dict = input_dict[key]` walk. -/
def descendPath (v : JVal) : List JVal → Except PyErr JVal
  | [] => .ok v
  | k :: rest =>
    match pyGetItem v k with
    | .error e => .error e
    | .ok w => descendPath w rest

/-- Embeds step3's `get_dict_path_value(dict_path, input_dict, column)`: walk
the path (exceptions here propagate — the walk is outside the `try`), then
return `int(value[column])` with every exception inside the `try` giving
`None`. -/
def get_dict_path_value (dict_path : JVal) (input_dict : JVal) (column : Int) :
    Except PyErr (Option Int) :=
  match pyIterList dict_path with
  | .error e => .error e
  | .ok keys =>
    match descendPath input_dict keys with
    | .error e => .error e
    | .ok v =>
      match v with
      | .list xs =>
        match pyListIdx xs column with
        | .error _ => .ok none
        | .ok e => .ok (pyIntOfVal e)
      | _ => .ok none

/-- Embeds step3's `get_sums_per_key_paths` (the `column` read from the log is
a parameter). -/
def get_sums_per_key_paths (dps : List (String × JVal)) (table : JVal)
    (column : Int) : Except PyErr (List (String × Option Int)) :=
  match dps with
  | [] => .ok []
  | (i, path) :: rest =>
    match get_dict_path_value path table column with
    | .error e => .error e
    | .ok v =>
      match get_sums_per_key_paths rest table column with
      | .error e => .error e
      | .ok tail => .ok ((i, v) :: tail)

/-- `decision == 'null' or decision == 'None' or decision is None`. -/
def isNullDecision : JVal → Bool
  | .null => true
  | .str s => s = "null" || s = "None"
  | _ => false

/-- `sum(v for v in path_sums.values() if v is not None)`. -/
def sumSums (sums : List (String × Option Int)) : Int :=
  sums.foldl (fun acc p => acc + p.2.getD 0) 0

/-- Result of one tier iteration of `get_ccp`'s loop: the tier's fresh
`problems_list`, the `(key_paths, path_sums, total_sum)` triple if the tier got
past path validation (`ccp_dict` is only written then), and whether the
supervisor was invoked. -/
structure CcpTier where
  problems : List String
  setData : Option (List (String × JVal) × List (String × Option Int) × Int)
  supInvoked : Bool

/-- The suspect-check + supervisor + sums part of one `get_ccp` tier iteration:
if the paths look suspect the supervisor's decision is consulted — a non-empty
list removes the named keys, anything else (empty list, non-list, `None`) keeps
the original paths and logs the single soft-warning problem
`"CCP: suspicious key path(s) detected"`; afterwards the sums are read and a
problem is logged for each missing sum. -/
def ccpTierSuspect (assets : JVal) (dps : List (String × JVal)) (sup : JVal)
    (column : Int) (sus : Bool) : Except PyErr CcpTier :=
  let step : List (String × JVal) × Bool × List String :=
    if sus then
      match sup with
      | .list (x :: xs) =>
        (dps.filter (fun kv => !((x :: xs).any (fun e => scalarEq e (.str kv.1)))),
          true, [])
      | _ => (dps, true, ["CCP: suspicious key path(s) detected"])
    else (dps, false, [])
  match get_sums_per_key_paths step.1 assets column with
  | .error e => .error e
  | .ok sums =>
    .ok ⟨step.2.2 ++ (sums.filter (fun p => p.2 = none)).map
          (fun p => "CCP: missing sum(s) detected: index = " ++ p.1),
        some (step.1, sums, sumSums sums), step.2.1⟩

/-- One tier iteration of `get_ccp`'s loop, given the tier's `count_votes`
decision and the supervisor decision that would be used if consulted. -/
def ccpTier (assets decision sup : JVal) (column : Int) : Except PyErr CcpTier :=
  if isNullDecision decision then .ok ⟨["CCP: key paths not found"], none, false⟩
  else
    match decision with
    | .obj dps =>
      match check_dict_paths dps assets with
      | .error e => .error e
      | .ok invalid =>
        if invalid = [] then
          match suspect_ccp_terms dps with
          | .error e => .error e
          | .ok sus => ccpTierSuspect assets dps sup column sus
        else
          .ok ⟨invalid.map (fun i => "CCP: problematic dict path: index = " ++ i),
            none, false⟩
    | _ => .ok ⟨["CCP: dict paths not in dict format"], none, false⟩

/-- Outcome of `get_ccp`: how many tiers ran, the `problems_list` passed to
`update_json` after the loop, the final `ccp_dict` content (kept from an earlier
tier when a later tier fails before writing it), and which tiers invoked the
supervisor. -/
structure CcpResult where
  tiersRun : Nat
  problems : List String
  ccp : Option (List (String × JVal) × List (String × Option Int) × Int)
  supInvoked0 : Bool
  supInvoked1 : Bool

/-- The body of `get_ccp` once the table's top-level fields are in hand. -/
def get_ccp_core (tfs : List (String × JVal)) (d0 d1 sup0 sup1 : JVal)
    (column : Int) : Except PyErr CcpResult :=
  match find_key tfs "asset" with
  | none => .ok ⟨0, ["CCP: assets not found in json table"], none, false, false⟩
  | some k =>
    let assets := (getField tfs k).getD .null
    match ccpTier assets d0 sup0 column with
    | .error e => .error e
    | .ok t0 =>
      if t0.problems = [] then
        .ok ⟨1, [], t0.setData, t0.supInvoked, false⟩
      else
        match ccpTier assets d1 sup1 column with
        | .error e => .error e
        | .ok t1 =>
          .ok ⟨2, t1.problems,
            (match t1.setData with
              | some s => some s
              | none => t0.setData),
            t0.supInvoked, t1.supInvoked⟩

/-- Embeds step3's `get_ccp` escalation loop (mini tier, then GPT-4o tier; a
tier with an empty `problems_list` breaks the loop). -/
def get_ccp (table : JVal) (d0 d1 sup0 sup1 : JVal) (column : Int) :
    Except PyErr CcpResult :=
  match table with
  | .obj tfs => get_ccp_core tfs d0 d1 sup0 sup1 column
  | _ => .error .typeError

example :
    ccpTier (.obj [("Current assets", .obj [("Cash", .list [.int 5])])])
      (.obj [("1", .list [.str "Current assets", .str "Cash"])]) .null 0
      = .ok ⟨[], some ([("1", .list [.str "Current assets", .str "Cash"])],
          [("1", some 5)], 5), false⟩ := rfl

example :
    ccpTier (.obj [("Current assets", .obj [("Inventories", .list [.int 7])])])
      (.obj [("1", .list [.str "Current assets", .str "Inventories"])]) (.list []) 0
      = .ok ⟨["CCP: suspicious key path(s) detected"],
          some ([("1", .list [.str "Current assets", .str "Inventories"])],
            [("1", some 7)], 7), true⟩ := rfl

example :
    ccpTier (.obj [("Cash", .list [.int 5])]) (.str "None") .null 0
      = .ok ⟨["CCP: key paths not found"], none, false⟩ := rfl

/-! ### Claim C4 -/

lemma ccpTierSuspect_softfail (assets : JVal) (dps : List (String × JVal))
    (sup : JVal) (column : Int) (sums : List (String × Option Int))
    (hsup : ∀ x xs, sup ≠ .list (x :: xs))
    (hsums : get_sums_per_key_paths dps assets column = .ok sums)
    (hnone : ∀ p ∈ sums, p.2 ≠ none) :
    ccpTierSuspect assets dps sup column true
      = .ok ⟨["CCP: suspicious key path(s) detected"],
          some (dps, sums, sumSums sums), true⟩ := by
  have hstep :
      (if true then
        match sup with
        | .list (x :: xs) =>
          (dps.filter (fun kv => !((x :: xs).any (fun e => scalarEq e (.str kv.1)))),
            true, ([] : List String))
        | _ => (dps, true, ["CCP: suspicious key path(s) detected"])
      else (dps, false, [])) = (dps, true, ["CCP: suspicious key path(s) detected"]) := by
    cases sup with
    | list xs =>
      cases xs with
      | nil => rfl
      | cons x rest => exact absurd rfl (hsup x rest)
    | null => rfl
    | int n => rfl
    | str s => rfl
    | obj fs => rfl
  have hfilter : sums.filter (fun p => p.2 = none) = [] := by
    rw [List.filter_eq_nil_iff]
    intro p hp
    simpa using hnone p hp
  unfold ccpTierSuspect
  rw [hstep]
  simp only [hsums, hfilter]
  rfl

lemma ccpTier_softfail (assets : JVal) (dps : List (String × JVal)) (sup : JVal)
    (column : Int) (sums : List (String × Option Int))
    (hcheck : check_dict_paths dps assets = .ok [])
    (hsus : suspect_ccp_terms dps = .ok true)
    (hsup : ∀ x xs, sup ≠ .list (x :: xs))
    (hsums : get_sums_per_key_paths dps assets column = .ok sums)
    (hnone : ∀ p ∈ sums, p.2 ≠ none) :
    ccpTier assets (.obj dps) sup column
      = .ok ⟨["CCP: suspicious key path(s) detected"],
          some (dps, sums, sumSums sums), true⟩ := by
  unfold ccpTier
  have hnull : isNullDecision (.obj dps) = false := rfl
  rw [hnull]
  simp only [Bool.false_eq_true, if_false]
  rw [hcheck]
  simp only [if_pos rfl]
  rw [hsus]
  exact ccpTierSuspect_softfail assets dps sup column sums hsup hsums hnone

/-- **C4** (counterexample).  Supervisor soft-failure at the *mini* tier does
escalate: the mini decision flags `Inventories` as suspect, the supervisor
returns the empty list (a soft failure), and — contrary to the claim — the
strong tier is then attempted (`tiersRun = 2`); the strong tier's answer is
clean, so the finally persisted problem list is empty: not even one
"suspicious key path(s) detected" problem is recorded for the item. -/
theorem get_ccp_soft_warning_escalates_counterexample :
    get_ccp
      (.obj [("Assets", .obj [("Current assets",
        .obj [("Cash", .list [.int 5]), ("Inventories", .list [.int 7])])])])
      (.obj [("1", .list [.str "Current assets", .str "Inventories"])])
      (.obj [("1", .list [.str "Current assets", .str "Cash"])])
      (.list []) .null 0
      = .ok ⟨2, [],
          some ([("1", .list [.str "Current assets", .str "Cash"])],
            [("1", some 5)], 5), true, false⟩ := rfl

/-- **C4** (amended).  A supervisor soft failure (output invalid — not a list —
or empty) keeps the tier's pre-supervisor decision and logs exactly one
`"CCP: suspicious key path(s) detected"` problem *within that tier*; but it does
not terminate the loop: whenever the first tier ends with any problem (the soft
warning included), the strong tier is attempted, and what is persisted is the
strong tier's outcome.  At the strong (final) tier a soft failure retains the
pre-supervisor decision, records exactly the one suspicious-path problem, and
still stores the extracted sums — the item is not marked failed. -/
theorem get_ccp_supervisor_soft_failure
    (tfs : List (String × JVal)) (k : String) (assets d0 sup0 sup1 : JVal)
    (column : Int) (t0 : CcpTier) (dps : List (String × JVal))
    (sums : List (String × Option Int))
    (hfind : find_key tfs "asset" = some k)
    (hassets : (getField tfs k).getD .null = assets)
    (ht0 : ccpTier assets d0 sup0 column = .ok t0)
    (h0 : t0.problems ≠ [])
    (hcheck : check_dict_paths dps assets = .ok [])
    (hsus : suspect_ccp_terms dps = .ok true)
    (hsup : ∀ x xs, sup1 ≠ .list (x :: xs))
    (hsums : get_sums_per_key_paths dps assets column = .ok sums)
    (hnone : ∀ p ∈ sums, p.2 ≠ none) :
    get_ccp (.obj tfs) d0 (.obj dps) sup0 sup1 column
      = .ok ⟨2, ["CCP: suspicious key path(s) detected"],
          some (dps, sums, sumSums sums), t0.supInvoked, true⟩ := by
  show get_ccp_core tfs d0 (.obj dps) sup0 sup1 column = _
  unfold get_ccp_core
  rw [hfind]
  simp only [hassets]
  rw [ht0]
  simp only [if_neg h0]
  rw [ccpTier_softfail assets dps sup1 column sums hcheck hsus hsup hsums hnone]

/-- Witness for `get_ccp_supervisor_soft_failure`: both tiers return the same
suspect path and the supervisor's decision is `None` at both tiers. -/
theorem get_ccp_supervisor_soft_failure_witness :
    get_ccp (.obj [("Assets", .obj [("Current assets",
        .obj [("Inventories", .list [.int 7])])])])
      (.obj [("1", .list [.str "Current assets", .str "Inventories"])])
      (.obj [("1", .list [.str "Current assets", .str "Inventories"])])
      .null .null 0
      = .ok ⟨2, ["CCP: suspicious key path(s) detected"],
          some ([("1", .list [.str "Current assets", .str "Inventories"])],
            [("1", some 7)], 7),
          (⟨["CCP: suspicious key path(s) detected"],
            some ([("1", .list [.str "Current assets", .str "Inventories"])],
              [("1", some 7)], 7), true⟩ : CcpTier).supInvoked, true⟩ :=
  get_ccp_supervisor_soft_failure
    [("Assets", .obj [("Current assets", .obj [("Inventories", .list [.int 7])])])]
    "Assets"
    (.obj [("Current assets", .obj [("Inventories", .list [.int 7])])])
    (.obj [("1", .list [.str "Current assets", .str "Inventories"])])
    .null .null 0
    ⟨["CCP: suspicious key path(s) detected"],
      some ([("1", .list [.str "Current assets", .str "Inventories"])],
        [("1", some 7)], 7), true⟩
    [("1", .list [.str "Current assets", .str "Inventories"])]
    [("1", some 7)]
    rfl rfl rfl (by simp) rfl rfl
    (by intro x xs h; exact JVal.noConfusion h)
    rfl
    (by intro p hp; simp at hp; rw [hp]; simp)

/-! ## Batch selection (step1 `get_forms_info`)

The `Forms` table is modelled as a list of rows in ascending-id storage order
(`id` is the `INTEGER PRIMARY KEY`, i.e. SQLite's rowid, so every full-table
`SELECT` and every `WHERE id IN (...)` / range query returns rows in ascending
id order); the set of completed form ids (`SELECT Form_id FROM Tasks WHERE
{CHECKPOINT_TASK} NOT NULL`) is the `existing` parameter.  Python's unbounded
ints are modelled by `Int`. -/

structure Form where
  id : Int
  name : String
  url : String
deriving DecidableEq

/-- Python list slicing `l[:b]` for a possibly negative `b`. -/
def pyTake {α : Type} (l : List α) (b : Int) : List α :=
  if 0 ≤ b then l.take b.toNat else l.take (l.length - (-b).toNat)

/-- Embeds step1's `get_forms_info` (step3's differs only in the columns it
selects).  Returns the selected rows and the final value of the mutated global
`BATCH_SIZE`, or the `ValueError` raised for an out-of-range
`FIRST_ROW_TO_OVERWRITE`. -/
def get_forms_info (forms : List Form) (existing : List Int) (retry : List Int)
    (skip : Bool) (batch : Option Int) (firstRow : Int) :
    Except String (List Form × Int) :=
  if retry ≠ [] then
    .ok (forms.filter (fun f => decide (f.id ∈ retry)), (retry.length : Int))
  else
    let n : Int := forms.length
    if ¬skip ∧ firstRow > n then
      .error "FIRST_ROW_TO_OVERWRITE out of range"
    else
      let remaining : Int := n - existing.length
      let B : Int :=
        match batch with
        | none => if skip then remaining else n - firstRow + 1
        | some b =>
          if skip then (if b > remaining then remaining else b)
          else (if firstRow + b > n then n - firstRow + 1 else b)
      if skip then
        let ids_to_get :=
          pyTake ((forms.map (fun f => f.id)).filter (fun i => decide (i ∉ existing))) B
        .ok (forms.filter (fun f => decide (f.id ∈ ids_to_get)), B)
      else
        .ok (forms.filter (fun f => decide (firstRow ≤ f.id ∧ f.id < firstRow + B)), B)

example :
    get_forms_info [⟨1, "a", "u1"⟩, ⟨2, "b", "u2"⟩, ⟨3, "c", "u3"⟩] [] [3, 1]
      true (some 99) 1
      = .ok ([⟨1, "a", "u1"⟩, ⟨3, "c", "u3"⟩], 2) := rfl
example :
    get_forms_info [⟨1, "a", "u1"⟩, ⟨2, "b", "u2"⟩, ⟨3, "c", "u3"⟩] [1] []
      true none 1
      = .ok ([⟨2, "b", "u2"⟩, ⟨3, "c", "u3"⟩], 2) := rfl
example :
    get_forms_info [⟨1, "a", "u1"⟩, ⟨2, "b", "u2"⟩] [] [] false (some 100) 1
      = .ok ([⟨1, "a", "u1"⟩, ⟨2, "b", "u2"⟩], 2) := rfl
example :
    get_forms_info [⟨1, "a", "u1"⟩, ⟨2, "b", "u2"⟩] [] [] false none 3
      = .error "FIRST_ROW_TO_OVERWRITE out of range" := rfl

/-! ### Claim C5 -/

/-- **C5**.  A non-empty retry list short-circuits `get_forms_info`: the result
is exactly the rows whose ids are in the list, in the table's ascending-id
order, the effective batch size is the length of the list, and the result does
not depend on the skip-existing flag, the configured batch size, the overwrite
offset or the completion state (they do not occur in the right-hand side). -/
theorem get_forms_info_retry_list (forms : List Form) (existing retry : List Int)
    (skip : Bool) (batch : Option Int) (firstRow : Int) (h : retry ≠ []) :
    get_forms_info forms existing retry skip batch firstRow
      = .ok (forms.filter (fun f => decide (f.id ∈ retry)), (retry.length : Int)) ∧
    (∀ f, f ∈ forms.filter (fun f => decide (f.id ∈ retry)) ↔ f ∈ forms ∧ f.id ∈ retry) ∧
    (List.Pairwise (fun a b => a.id < b.id) forms →
      List.Pairwise (fun a b => a.id < b.id)
        (forms.filter (fun f => decide (f.id ∈ retry)))) := by
  refine ⟨?_, ?_, ?_⟩
  · unfold get_forms_info
    rw [if_pos h]
  · intro f
    rw [List.mem_filter]
    simp
  · intro hsorted
    exact List.Pairwise.filter _ hsorted

/-- Witness for `get_forms_info_retry_list`: retry list `[3, 7]` over forms with
ids 1, 3, 7, 8 yields exactly forms 3 and 7 in ascending order with batch size
2, regardless of the other settings (`skip = false`, `batch = some 1`,
`firstRow = 99`). -/
theorem get_forms_info_retry_list_witness :
    get_forms_info [⟨1, "a", "u"⟩, ⟨3, "b", "u"⟩, ⟨7, "c", "u"⟩, ⟨8, "d", "u"⟩]
        [1, 3] [3, 7] false (some 1) 99
      = .ok ([⟨1, "a", "u"⟩, ⟨3, "b", "u"⟩, ⟨7, "c", "u"⟩, ⟨8, "d", "u"⟩].filter
          (fun f => decide (f.id ∈ [3, 7])), ((3 : Int) :: [7]).length) ∧
    (∀ f, f ∈ ([⟨1, "a", "u"⟩, ⟨3, "b", "u"⟩, ⟨7, "c", "u"⟩, ⟨8, "d", "u"⟩] : List Form).filter
          (fun f => decide (f.id ∈ [3, 7]))
        ↔ f ∈ ([⟨1, "a", "u"⟩, ⟨3, "b", "u"⟩, ⟨7, "c", "u"⟩, ⟨8, "d", "u"⟩] : List Form)
          ∧ f.id ∈ [3, 7]) ∧
    (List.Pairwise (fun a b => a.id < b.id)
        ([⟨1, "a", "u"⟩, ⟨3, "b", "u"⟩, ⟨7, "c", "u"⟩, ⟨8, "d", "u"⟩] : List Form) →
      List.Pairwise (fun a b => a.id < b.id)
        (([⟨1, "a", "u"⟩, ⟨3, "b", "u"⟩, ⟨7, "c", "u"⟩, ⟨8, "d", "u"⟩] : List Form).filter
          (fun f => decide (f.id ∈ [3, 7])))) :=
  get_forms_info_retry_list
    [⟨1, "a", "u"⟩, ⟨3, "b", "u"⟩, ⟨7, "c", "u"⟩, ⟨8, "d", "u"⟩]
    [1, 3] [3, 7] false (some 1) 99 (by decide)

/-! ### Claim C6 -/

/-- If a predicate over a list is determined by the element's position lying in
`[lo, hi)`, filtering equals slicing. -/
lemma filter_position {α : Type} (l : List α) (p : α → Bool) :
    ∀ (lo hi : Nat),
    (∀ k (hk : k < l.length), p (l.get ⟨k, hk⟩) = decide (lo ≤ k ∧ k < hi)) →
    l.filter p = (l.drop lo).take (hi - lo) := by
  induction l with
  | nil => intro lo hi _; simp
  | cons a t ih =>
    intro lo hi h
    have h0 : p a = decide (lo ≤ 0 ∧ 0 < hi) := h 0 (by simp)
    have ht : ∀ k (hk : k < t.length),
        p (t.get ⟨k, hk⟩) = decide (lo - 1 ≤ k ∧ k < hi - 1) := by
      intro k hk
      have hstep := h (k + 1) (by simpa using Nat.succ_lt_succ hk)
      rw [show (a :: t).get ⟨k + 1, by simpa using Nat.succ_lt_succ hk⟩
          = t.get ⟨k, hk⟩ from rfl] at hstep
      rw [hstep]
      exact decide_eq_decide.mpr (by omega)
    rcases Nat.eq_zero_or_pos lo with rfl | hlo
    · rcases Nat.eq_zero_or_pos hi with rfl | hhi
      · have hpa : p a = false := by rw [h0]; simp
        rw [List.filter_cons_of_neg (by simp [hpa]), ih 0 0 (by simpa using ht)]
        simp
      · have hpa : p a = true := by rw [h0]; simp [hhi]
        rw [List.filter_cons_of_pos (by simp [hpa]), ih 0 (hi - 1) (by simpa using ht)]
        simp only [List.drop_zero]
        rw [show hi - 0 = (hi - 1) + 1 by omega]
        rfl
    · have hpa : p a = false := by rw [h0]; simp; omega
      rw [List.filter_cons_of_neg (by simp [hpa]), ih (lo - 1) (hi - 1) ht]
      rw [show (a :: t).drop lo = t.drop (lo - 1) by
        cases lo with
        | zero => omega
        | succ m => simp
        ]
      rw [show hi - lo = (hi - 1) - (lo - 1) by omega]

/-- **C6**.  In overwrite mode over a `Forms` table whose ids are exactly
`1 .. N` (the rowid layout the pipeline creates), with `[]` retry list: a start
offset beyond `N` raises the configuration error before any row is selected,
and otherwise the selection is the contiguous slice of up to `batch` rows
starting at row `firstRow`, with the effective batch size silently clamped to
`N - firstRow + 1` — never an error; with `batch = none` all rows from
`firstRow` on are selected. -/
theorem get_forms_info_overwrite_clamp (forms : List Form) (existing : List Int)
    (batch : Option Int) (firstRow : Int)
    (hids : ∀ k (hk : k < forms.length), (forms.get ⟨k, hk⟩).id = (k : Int) + 1) :
    (firstRow > (forms.length : Int) →
      get_forms_info forms existing [] false batch firstRow
        = .error "FIRST_ROW_TO_OVERWRITE out of range") ∧
    (∀ b, 1 ≤ firstRow → firstRow ≤ (forms.length : Int) → batch = some b → 1 ≤ b →
      get_forms_info forms existing [] false batch firstRow
        = .ok ((forms.drop (firstRow - 1).toNat).take
              (min b ((forms.length : Int) - firstRow + 1)).toNat,
            min b ((forms.length : Int) - firstRow + 1)) ∧
      ((forms.drop (firstRow - 1).toNat).take
          (min b ((forms.length : Int) - firstRow + 1)).toNat).length
        = (min b ((forms.length : Int) - firstRow + 1)).toNat) ∧
    (1 ≤ firstRow → firstRow ≤ (forms.length : Int) → batch = none →
      get_forms_info forms existing [] false batch firstRow
        = .ok ((forms.drop (firstRow - 1).toNat).take
              ((forms.length : Int) - firstRow + 1).toNat,
            (forms.length : Int) - firstRow + 1) ∧
      ((forms.drop (firstRow - 1).toNat).take
          ((forms.length : Int) - firstRow + 1).toNat).length
        = ((forms.length : Int) - firstRow + 1).toNat) := by
  have slice : ∀ B : Int, 1 ≤ firstRow → firstRow ≤ (forms.length : Int) →
      0 ≤ B → B ≤ (forms.length : Int) - firstRow + 1 →
      forms.filter (fun f => decide (firstRow ≤ f.id ∧ f.id < firstRow + B))
          = (forms.drop (firstRow - 1).toNat).take B.toNat ∧
      ((forms.drop (firstRow - 1).toNat).take B.toNat).length = B.toNat := by
    intro B h1 h2 hB0 hBle
    have hfilter : forms.filter (fun f => decide (firstRow ≤ f.id ∧ f.id < firstRow + B))
        = (forms.drop (firstRow - 1).toNat).take
            (((firstRow - 1).toNat + B.toNat) - (firstRow - 1).toNat) := by
      apply filter_position
      intro k hk
      rw [hids k hk]
      exact decide_eq_decide.mpr (by omega)
    have hlen : ((forms.drop (firstRow - 1).toNat).take B.toNat).length = B.toNat := by
      rw [List.length_take, List.length_drop]
      omega
    constructor
    · rw [hfilter]
      congr 1
      omega
    · exact hlen
  refine ⟨?_, ?_, ?_⟩
  · intro hgt
    unfold get_forms_info
    rw [if_neg (by simp), if_pos (by exact ⟨by simp, hgt⟩)]
  · intro b h1 h2 hb hb1
    subst hb
    have hBeq : (if firstRow + b > (forms.length : Int) then
        (forms.length : Int) - firstRow + 1 else b)
        = min b ((forms.length : Int) - firstRow + 1) := by
      by_cases hc : firstRow + b > (forms.length : Int)
      · rw [if_pos hc, min_eq_right (by omega)]
      · rw [if_neg hc, min_eq_left (by omega)]
    have hs := slice (min b ((forms.length : Int) - firstRow + 1)) h1 h2
      (by omega) (by omega)
    constructor
    · unfold get_forms_info
      rw [if_neg (by simp), if_neg (by simp; omega)]
      simp only [Bool.false_eq_true, if_false, hBeq]
      rw [hs.1]
    · exact hs.2
  · intro h1 h2 hb
    subst hb
    have hs := slice ((forms.length : Int) - firstRow + 1) h1 h2 (by omega) (by omega)
    constructor
    · unfold get_forms_info
      rw [if_neg (by simp), if_neg (by simp; omega)]
      simp only [Bool.false_eq_true, if_false]
      rw [hs.1]
    · exact hs.2

/-- Witness for `get_forms_info_overwrite_clamp`: `batch_size = 100`,
`start offset = 1` over 10 rows yields exactly the 10 rows and an effective
batch size of 10, with no error. -/
theorem get_forms_info_overwrite_clamp_witness :
    get_forms_info
        [⟨1, "f", "u"⟩, ⟨2, "f", "u"⟩, ⟨3, "f", "u"⟩, ⟨4, "f", "u"⟩, ⟨5, "f", "u"⟩,
          ⟨6, "f", "u"⟩, ⟨7, "f", "u"⟩, ⟨8, "f", "u"⟩, ⟨9, "f", "u"⟩, ⟨10, "f", "u"⟩]
        [] [] false (some 100) 1
      = .ok ((([⟨1, "f", "u"⟩, ⟨2, "f", "u"⟩, ⟨3, "f", "u"⟩, ⟨4, "f", "u"⟩, ⟨5, "f", "u"⟩,
            ⟨6, "f", "u"⟩, ⟨7, "f", "u"⟩, ⟨8, "f", "u"⟩, ⟨9, "f", "u"⟩,
            ⟨10, "f", "u"⟩] : List Form).drop ((1 : Int) - 1).toNat).take
            (min 100 ((([⟨1, "f", "u"⟩, ⟨2, "f", "u"⟩, ⟨3, "f", "u"⟩, ⟨4, "f", "u"⟩,
              ⟨5, "f", "u"⟩, ⟨6, "f", "u"⟩, ⟨7, "f", "u"⟩, ⟨8, "f", "u"⟩, ⟨9, "f", "u"⟩,
              ⟨10, "f", "u"⟩] : List Form).length : Int) - 1 + 1)).toNat,
          min 100 ((([⟨1, "f", "u"⟩, ⟨2, "f", "u"⟩, ⟨3, "f", "u"⟩, ⟨4, "f", "u"⟩,
            ⟨5, "f", "u"⟩, ⟨6, "f", "u"⟩, ⟨7, "f", "u"⟩, ⟨8, "f", "u"⟩, ⟨9, "f", "u"⟩,
            ⟨10, "f", "u"⟩] : List Form).length : Int) - 1 + 1)) ∧
    ((([⟨1, "f", "u"⟩, ⟨2, "f", "u"⟩, ⟨3, "f", "u"⟩, ⟨4, "f", "u"⟩, ⟨5, "f", "u"⟩,
          ⟨6, "f", "u"⟩, ⟨7, "f", "u"⟩, ⟨8, "f", "u"⟩, ⟨9, "f", "u"⟩,
          ⟨10, "f", "u"⟩] : List Form).drop ((1 : Int) - 1).toNat).take
          (min 100 ((([⟨1, "f", "u"⟩, ⟨2, "f", "u"⟩, ⟨3, "f", "u"⟩, ⟨4, "f", "u"⟩,
            ⟨5, "f", "u"⟩, ⟨6, "f", "u"⟩, ⟨7, "f", "u"⟩, ⟨8, "f", "u"⟩, ⟨9, "f", "u"⟩,
            ⟨10, "f", "u"⟩] : List Form).length : Int) - 1 + 1)).toNat).length
      = (min 100 ((([⟨1, "f", "u"⟩, ⟨2, "f", "u"⟩, ⟨3, "f", "u"⟩, ⟨4, "f", "u"⟩,
          ⟨5, "f", "u"⟩, ⟨6, "f", "u"⟩, ⟨7, "f", "u"⟩, ⟨8, "f", "u"⟩, ⟨9, "f", "u"⟩,
          ⟨10, "f", "u"⟩] : List Form).length : Int) - 1 + 1)).toNat :=
  (get_forms_info_overwrite_clamp
    [⟨1, "f", "u"⟩, ⟨2, "f", "u"⟩, ⟨3, "f", "u"⟩, ⟨4, "f", "u"⟩, ⟨5, "f", "u"⟩,
      ⟨6, "f", "u"⟩, ⟨7, "f", "u"⟩, ⟨8, "f", "u"⟩, ⟨9, "f", "u"⟩, ⟨10, "f", "u"⟩]
    [] (some 100) 1
    (by intro k hk; simp at hk; interval_cases k <;> rfl)).2.1
    100 (by omega) (by norm_num) rfl (by omega)

/-! ## Problem ledger (step3 `update_sql`, lines writing `FormProblems`)

Modelled from the spec: the `FormProblems` table (its schema is created outside
`src/`) is taken per §6's `Problems(item_id, problem_id)` and §4.6 to carry a
uniqueness constraint on the `(Form_id, Problem_id)` pair, which is what makes
`INSERT OR IGNORE INTO FormProblems VALUES (?, ?)` skip an already-present
pair.  The table is a list of `(Form_id, Problem_id)` rows; step3's `update_sql`
first deletes the item's rows when overwriting (`(not SKIP_EXISTING) or
RETRY_LIST`) and then insert-or-ignores each problem id. -/

def update_sql_formProblems (overwrite : Bool) (formId : Int) (probIds : List Int)
    (tbl : List (Int × Int)) : List (Int × Int) :=
  let t := if overwrite then tbl.filter (fun r => decide (r.1 ≠ formId)) else tbl
  probIds.foldl
    (fun acc p => if (formId, p) ∈ acc then acc else acc ++ [(formId, p)]) t

lemma insert_fold_count (probIds : List Int) : ∀ (acc : List (Int × Int))
    (fid : Int) (pr : Int × Int), acc.count pr ≤ 1 →
    (probIds.foldl
        (fun acc p => if (fid, p) ∈ acc then acc else acc ++ [(fid, p)]) acc).count pr
      ≤ 1 := by
  induction probIds with
  | nil => intro acc fid pr h; exact h
  | cons p rest ih =>
    intro acc fid pr h
    simp only [List.foldl_cons]
    by_cases hmem : (fid, p) ∈ acc
    · rw [if_pos hmem]
      exact ih acc fid pr h
    · rw [if_neg hmem]
      apply ih
      rw [List.count_append]
      by_cases hpr : pr = (fid, p)
      · have : acc.count pr = 0 := by
          rw [List.count_eq_zero]
          rw [hpr]
          exact hmem
        rw [this]
        simp [hpr]
      · have : List.count pr [(fid, p)] = 0 := by
          rw [List.count_eq_zero]
          simp
          exact fun hc => hpr (by rw [hc])
        omega

lemma insert_fold_mem (probIds : List Int) : ∀ (acc : List (Int × Int))
    (fid : Int) (x : Int × Int),
    x ∈ probIds.foldl
        (fun acc p => if (fid, p) ∈ acc then acc else acc ++ [(fid, p)]) acc
      ↔ x ∈ acc ∨ ∃ p ∈ probIds, x = (fid, p) := by
  induction probIds with
  | nil => intro acc fid x; simp
  | cons p rest ih =>
    intro acc fid x
    simp only [List.foldl_cons]
    by_cases hmem : (fid, p) ∈ acc
    · rw [if_pos hmem, ih]
      constructor
      · rintro (hx | ⟨q, hq, rfl⟩)
        · exact Or.inl hx
        · exact Or.inr ⟨q, List.mem_cons_of_mem _ hq, rfl⟩
      · rintro (hx | ⟨q, hq, rfl⟩)
        · exact Or.inl hx
        · rcases List.mem_cons.mp hq with rfl | hq
          · exact Or.inl hmem
          · exact Or.inr ⟨q, hq, rfl⟩
    · rw [if_neg hmem, ih]
      simp only [List.mem_append, List.mem_singleton]
      constructor
      · rintro ((hx | hx) | ⟨q, hq, rfl⟩)
        · exact Or.inl hx
        · exact Or.inr ⟨p, List.mem_cons_self _ _, hx⟩
        · exact Or.inr ⟨q, List.mem_cons_of_mem _ hq, rfl⟩
      · rintro (hx | ⟨q, hq, rfl⟩)
        · exact Or.inl (Or.inl hx)
        · rcases List.mem_cons.mp hq with rfl | hq
          · exact Or.inl (Or.inr rfl)
          · exact Or.inr ⟨q, hq, rfl⟩

/-! ### Claim C7 -/

/-- **C7**.  Problem deduplication, at both persistence layers:
1. the `'problems'` branch of `update_json` leaves a `data` list with no
   duplicates whose members are exactly the old problems together with the new
   value(s) — a given problem description appears at most once;
2. `update_sql`'s insert-or-ignore preserves "at most one ledger row per
   `(form, problem)` pair" whatever the combination of inputs;
3. on an overwrite or retry attempt (`overwrite = true`) the item's previously
   persisted rows are deleted first: afterwards the item's rows are exactly the
   problems of the latest attempt, and other items' rows are untouched. -/
theorem problems_dedup_and_ledger :
    (∀ (c : List (String × JVal)) (xs : List JVal) (v : JVal)
        (c2 : List (String × JVal)),
      getField c "data" = some (.list xs) →
      (xs ++ pyAsList v).all hashable = true →
      problemsFieldsUpd c v = .ok c2 →
      ∃ ds, getField c2 "data" = some (.list ds) ∧ ds.Nodup ∧
        (∀ x, x ∈ ds ↔ x ∈ xs ++ pyAsList v)) ∧
    (∀ (overwrite : Bool) (fid : Int) (probIds : List Int)
        (tbl : List (Int × Int)) (pr : Int × Int),
      tbl.count pr ≤ 1 →
      (update_sql_formProblems overwrite fid probIds tbl).count pr ≤ 1) ∧
    (∀ (fid : Int) (probIds : List Int) (tbl : List (Int × Int)),
      (∀ p, (fid, p) ∈ update_sql_formProblems true fid probIds tbl ↔ p ∈ probIds) ∧
      (∀ g q, g ≠ fid →
        ((g, q) ∈ update_sql_formProblems true fid probIds tbl ↔ (g, q) ∈ tbl))) := by
  refine ⟨?_, ?_, ?_⟩
  · intro c xs v c2 hdata hh hupd
    rw [problemsFieldsUpd_list c xs v hdata hh] at hupd
    injection hupd with hupd'
    subst hupd'
    refine ⟨dedupKeepFirst scalarEq (xs ++ pyAsList v), getField_setField_self _ _ _,
      nodup_dedupKeepFirst _ (fun y hy => List.all_eq_true.mp hh y hy), ?_⟩
    intro x
    exact mem_dedupKeepFirst _ x (fun y hy => List.all_eq_true.mp hh y hy)
  · intro overwrite fid probIds tbl pr h
    unfold update_sql_formProblems
    apply insert_fold_count
    cases overwrite with
    | false => simpa using h
    | true =>
      simp only [if_pos rfl]
      calc (tbl.filter (fun r => decide (r.1 ≠ fid))).count pr
          ≤ tbl.count pr := (List.filter_sublist tbl).count_le pr
        _ ≤ 1 := h
  · intro fid probIds tbl
    constructor
    · intro p
      unfold update_sql_formProblems
      rw [insert_fold_mem]
      simp only [if_pos rfl]
      constructor
      · rintro (hx | ⟨q, hq, hqe⟩)
        · rcases List.mem_filter.mp hx with ⟨_, hne⟩
          simp at hne
        · injection hqe with h1 h2
          rw [h2]
          exact hq
      · intro hp
        exact Or.inr ⟨p, hp, rfl⟩
    · intro g q hg
      unfold update_sql_formProblems
      rw [insert_fold_mem]
      simp only [if_pos rfl]
      constructor
      · rintro (hx | ⟨p, _, hpe⟩)
        · exact (List.mem_filter.mp hx).1
        · injection hpe with h1 _
          exact absurd h1 hg
      · intro hgq
        exact Or.inl (List.mem_filter.mpr ⟨hgq, by simpa using hg⟩)

/-- Witness for `problems_dedup_and_ledger` at concrete inputs: repeated problem
strings collapse to one entry, the ledger invariant holds, and the overwrite
path replaces the item's rows. -/
theorem problems_dedup_and_ledger_witness :
    (∃ ds, getField (setField [("data", .list [.str "p1"]), ("timestamp", .null)]
        "data" (.list (dedupKeepFirst scalarEq
          ([.str "p1"] ++ pyAsList (.str "p1"))))) "data" = some (.list ds) ∧
      ds.Nodup ∧ (∀ x, x ∈ ds ↔ x ∈ [.str "p1"] ++ pyAsList (.str "p1"))) ∧
    (update_sql_formProblems false 1 [5, 5] [(1, 5)]).count (1, 5) ≤ 1 ∧
    ((3, 9) ∈ update_sql_formProblems true 3 [9] [(3, 4), (2, 7)] ↔ 9 ∈ ([9] : List Int)) ∧
    ((2, 7) ∈ update_sql_formProblems true 3 [9] [(3, 4), (2, 7)]
      ↔ (2, 7) ∈ ([(3, 4), (2, 7)] : List (Int × Int))) := by
  have hjson := problems_dedup_and_ledger.1
    [("data", .list [.str "p1"]), ("timestamp", .null)]
    [.str "p1"] (.str "p1") (setField [("data", .list [.str "p1"]), ("timestamp", .null)]
      "data" (.list (dedupKeepFirst scalarEq ([.str "p1"] ++ pyAsList (.str "p1")))))
    (by rfl) (by rfl) (by rfl)
  refine ⟨hjson, ?_, ?_, ?_⟩
  · exact problems_dedup_and_ledger.2.1 false 1 [5, 5] [(1, 5)] (1, 5) (by decide)
  · exact (problems_dedup_and_ledger.2.2 3 [9] [(3, 4), (2, 7)]).1 9
  · exact (problems_dedup_and_ledger.2.2 3 [9] [(3, 4), (2, 7)]).2 2 7 (by decide)

/-! ### Claim C8 -/

/-- Skipping a run of `m` consecutive `OpenAIError` failures (with the attempt
budget not yet reached) just advances the call index and `fail_counter`; no
vote is recorded and no other state changes. -/
lemma gptLoop_skip_errors (oracle : Nat → CallResult) (trials : Nat) :
    ∀ (m fuel callIdx failCnt : Nat) (votes : List String),
    (∀ i, i < m → oracle (callIdx + i) = .apiError) →
    failCnt + m < GPT_ATTEMPTS →
    gptLoop oracle trials (fuel + m) callIdx failCnt votes
      = gptLoop oracle trials fuel (callIdx + m) (failCnt + m) votes := by
  intro m
  induction m with
  | zero => intro fuel callIdx failCnt votes _ _; rfl
  | succ m ih =>
    intro fuel callIdx failCnt votes herr hcnt
    have h0 : oracle callIdx = .apiError := by
      simpa using herr 0 (by omega)
    rw [show fuel + (m + 1) = (fuel + m) + 1 from rfl, gptLoop, h0]
    show (if failCnt + 1 = GPT_ATTEMPTS then some (.fatalAttempts (callIdx + 1))
      else gptLoop oracle trials (fuel + m) (callIdx + 1) (failCnt + 1) votes) = _
    rw [if_neg (by unfold GPT_ATTEMPTS at hcnt ⊢; omega)]
    rw [ih fuel (callIdx + 1) (failCnt + 1) votes
      (fun i hi => by
        rw [show callIdx + 1 + i = callIdx + (i + 1) by omega]
        exact herr (i + 1) (by omega))
      (by omega)]
    congr 1 <;> omega

/-- **C8**.  Error handling of `gpt_completion` against the oracle stream:
1. after any number `j < GPT_ATTEMPTS` of retried `OpenAIError` failures, a
   `RateLimitError` aborts the call immediately and fatally — exactly `j + 1`
   API calls are made, i.e. the rate-limit failure itself is never retried;
2. whichever oracle is behind the stream, once the first `GPT_ATTEMPTS = 3`
   calls fail with a non-rate-limit `OpenAIError`, the fatal non-retryable
   exception is raised after exactly 3 calls, for every trial budget;
3. non-rate-limit errors are retried: two failures followed by a success still
   produce the vote (here with `trials = 1`), at the cost of 3 calls. -/
theorem gpt_completion_failure_handling (trials j : Nat) (s : String)
    (h1 : 1 ≤ trials) (hj : j < GPT_ATTEMPTS) :
    gpt_completion (fun i => if i < j then .apiError else .rateLimit) trials
      = some (.fatalRateLimit (j + 1)) ∧
    (∀ oracle : Nat → CallResult,
      (∀ i, i < GPT_ATTEMPTS → oracle i = .apiError) →
      gpt_completion oracle trials = some (.fatalAttempts GPT_ATTEMPTS)) ∧
    gpt_completion (fun i => if i < 2 then .apiError else .ok s) 1
      = some (.success [cleanOutput s] 3) := by
  refine ⟨?_, ?_, ?_⟩
  · unfold gpt_completion
    rw [show trials + GPT_ATTEMPTS = (trials + GPT_ATTEMPTS - j) + j by
      unfold GPT_ATTEMPTS at hj ⊢; omega]
    rw [gptLoop_skip_errors _ trials j (trials + GPT_ATTEMPTS - j) 0 0 []
      (fun i hi => by simp [hi]) (by omega)]
    simp only [Nat.zero_add]
    rw [show trials + GPT_ATTEMPTS - j = (trials + GPT_ATTEMPTS - j - 1) + 1 by
      unfold GPT_ATTEMPTS at hj ⊢; omega]
    rw [gptLoop]
    rw [if_neg (lt_irrefl j)]
  · intro oracle herr
    unfold gpt_completion
    rw [show trials + GPT_ATTEMPTS = (trials + 1) + 2 by unfold GPT_ATTEMPTS; omega]
    rw [gptLoop_skip_errors oracle trials 2 (trials + 1) 0 0 []
      (fun i hi => by
        rw [Nat.zero_add]; exact herr i (by unfold GPT_ATTEMPTS; omega))
      (by unfold GPT_ATTEMPTS; omega)]
    simp only [Nat.zero_add]
    rw [gptLoop]
    have h2 : oracle 2 = .apiError := herr 2 (by unfold GPT_ATTEMPTS; omega)
    rw [h2]
    show (if 2 + 1 = GPT_ATTEMPTS then some (.fatalAttempts (2 + 1))
      else gptLoop oracle trials trials (2 + 1) (2 + 1) []) = _
    rw [if_pos (by unfold GPT_ATTEMPTS; omega)]
    rfl
  · rfl

/-- Witness for `gpt_completion_failure_handling` at `trials = 5`, one retried
failure before the quota error, and completion text `" 7 "`. -/
theorem gpt_completion_failure_handling_witness :
    gpt_completion (fun i => if i < 1 then .apiError else .rateLimit) 5
      = some (.fatalRateLimit 2) ∧
    (∀ oracle : Nat → CallResult,
      (∀ i, i < GPT_ATTEMPTS → oracle i = .apiError) →
      gpt_completion oracle 5 = some (.fatalAttempts GPT_ATTEMPTS)) ∧
    gpt_completion (fun i => if i < 2 then .apiError else .ok " 7 ") 1
      = some (.success [cleanOutput " 7 "] 3) :=
  gpt_completion_failure_handling 5 1 " 7 " (by omega) (by unfold GPT_ATTEMPTS; omega)
